import Mathlib

/-!
Lock-free triple buffer (`TripleBuffer.h`): sequential embedding.

The class `TripleBuffer<T>` holds three slots of `T` and one 8-bit flags
register `(unused) (new write) (2x dirty) (2x clean) (2x snap)`.  The
embedding below follows `include/lockless_tripplebuffer/TripleBuffer.h`
member by member.  Machine words are natural numbers, results of type
`uint_fast8_t` are reduced modulo `256`, and an access `buffer[i]` with
`i` outside `0..2` has no result.
-/

namespace TripleBuffer

/-! ## Data model -/

/-- The member `T buffer[3]`: exactly three slots. -/
structure Buffer3 (T : Type) where
  b0 : T
  b1 : T
  b2 : T
deriving DecidableEq, Repr

/-- Read of `buffer[i]`; an index outside the array has no result. -/
def Buffer3.get? {T : Type} (b : Buffer3 T) : Nat → Option T
  | 0 => some b.b0
  | 1 => some b.b1
  | 2 => some b.b2
  | _ => none

/-- In-place mutation of `buffer[i]` by `g`; an index outside the array has no result. -/
def Buffer3.modify? {T : Type} (b : Buffer3 T) (g : T → T) : Nat → Option (Buffer3 T)
  | 0 => some { b with b0 := g b.b0 }
  | 1 => some { b with b1 := g b.b1 }
  | 2 => some { b with b2 := g b.b2 }
  | _ => none

end TripleBuffer

/-- The object state of `TripleBuffer<T>`: the flags register and the three slots. -/
structure TripleBuffer (T : Type) where
  flags : Nat
  buffer : TripleBuffer.Buffer3 T
deriving DecidableEq, Repr

namespace TripleBuffer

variable {T : Type}

/-! ## Flags layout (header lines 90-94) -/

/-- Layout comment: `dirtyIndex = (flags & 0x30) >> 4`. -/
def dirtyIndex (flags : Nat) : Nat := (flags &&& 0x30) >>> 4

/-- Layout comment: `cleanIndex = (flags & 0xC) >> 2`. -/
def cleanIndex (flags : Nat) : Nat := (flags &&& 0xC) >>> 2

/-- Layout comment: `snapIndex = (flags & 0x3)`. -/
def snapIndex (flags : Nat) : Nat := flags &&& 0x3

/-- The private member `isNewWrite`: `(flags & 0x40) != 0`. -/
def isNewWrite (flags : Nat) : Bool := (flags &&& 0x40) != 0

/-- The private member `swapSnapWithClean`. -/
def swapSnapWithClean (flags : Nat) : Nat :=
  let flag_mask_1 := 0x30
  let flag_mask_2 := 0x3
  let flag_mask_3 := 0xC
  let bit_shift := 2
  ((flags &&& flag_mask_1)
    ||| ((flags &&& flag_mask_2) <<< bit_shift)
    ||| ((flags &&& flag_mask_3) >>> bit_shift)) % 256

/-- The private member `newWriteSwapCleanWithDirty`. -/
def newWriteSwapCleanWithDirty (flags : Nat) : Nat :=
  (0x40
    ||| ((flags &&& 0xC) <<< 2)
    ||| ((flags &&& 0x30) >>> 2)
    ||| (flags &&& 0x3)) % 256

/-! ## The atomic register in a single-threaded run -/

/-- One call `flags.compare_exchange_weak(expected, desired)` on a register holding
`reg`: the result is (success, new register value, new `expected`).  On a
mismatch `expected` is reloaded from the register.  A spurious failure (register
equal to `expected`, nothing stored, `false` returned) repeats the same loop
iteration with the same values and is not a separate case here. -/
def compare_exchange_weak (reg expected desired : Nat) : Bool × Nat × Nat :=
  if reg = expected then (true, desired, expected) else (false, reg, reg)

/-- The loop `while (!flags.compare_exchange_weak(flagsNow, f(flagsNow)));` run with
no other thread touching the register; the result is the final register value. -/
def casLoop (f : Nat → Nat) (reg flagsNow : Nat) : Nat :=
  match h : compare_exchange_weak reg flagsNow (f flagsNow) with
  | (true, reg', _) => reg'
  | (false, reg', flagsNow') =>
    -- the failed exchange reloaded `flagsNow`, so the next one succeeds
    have _hfail := h
    casLoop f reg' flagsNow'
termination_by (if reg = flagsNow then 0 else 1)
decreasing_by
  unfold compare_exchange_weak at h
  split at h
  · simp at h
  · rename_i hne
    simp only [Prod.mk.injEq, true_and] at h
    obtain ⟨h1, h2⟩ := h
    subst h1 h2
    simp [hne]

/-! ## Constructors and public members -/

/-- The constructor `TripleBuffer(const T& init)`. -/
def init (v : T) : TripleBuffer T :=
  { flags := 0x6, buffer := ⟨v, v, v⟩ }

/-- The default constructor: `T dummy = T()` copied into the three slots. -/
def initDefault [Inhabited T] : TripleBuffer T :=
  let dummy : T := default
  { flags := 0x6, buffer := ⟨dummy, dummy, dummy⟩ }

/-- The member `snap`: `buffer[flags.load() & 0x3]`, by value. -/
def snap (s : TripleBuffer T) : Option T :=
  s.buffer.get? (s.flags &&& 0x3)

/-- The member `write`: `buffer[(flags.load() & 0x30) >> 4] = newT`. -/
def write (s : TripleBuffer T) (newT : T) : Option (TripleBuffer T) :=
  (s.buffer.modify? (fun _ => newT) ((s.flags &&& 0x30) >>> 4)).map
    (fun b => { s with buffer := b })

/-- The member `getWriteRef`: the slot designated by the returned reference. -/
def getWriteRef (s : TripleBuffer T) : Nat :=
  (s.flags &&& 0x30) >>> 4

/-- The member `getReadRef`: the slot designated by the returned reference. -/
def getReadRef (s : TripleBuffer T) : Nat :=
  s.flags &&& 0x3

/-- Read through a reference to slot `ref`. -/
def deref (s : TripleBuffer T) (ref : Nat) : Option T :=
  s.buffer.get? ref

/-- Mutation `g` of the referenced slot through a `T&` to slot `ref`
(`ref = v`, `ref[0] = 1`, `ref.fill(4)`). -/
def assignRef (s : TripleBuffer T) (ref : Nat) (g : T → T) : Option (TripleBuffer T) :=
  (s.buffer.modify? g ref).map (fun b => { s with buffer := b })

/-- The member `newSnap`. -/
def newSnap (s : TripleBuffer T) : Bool × TripleBuffer T :=
  let flagsNow := s.flags
  if !isNewWrite flagsNow then (false, s)
  else (true, { s with flags := casLoop swapSnapWithClean s.flags flagsNow })

/-- The member `flipWriter`. -/
def flipWriter (s : TripleBuffer T) : TripleBuffer T :=
  let flagsNow := s.flags
  { s with flags := casLoop newWriteSwapCleanWithDirty s.flags flagsNow }

/-- The member `readLast`: `newSnap(); return snap();`. -/
def readLast (s : TripleBuffer T) : Option T × TripleBuffer T :=
  let s1 := (newSnap s).2
  (snap s1, s1)

/-- The member `update`: `write(newT); flipWriter();`. -/
def update (s : TripleBuffer T) (newT : T) : Option (TripleBuffer T) :=
  (write s newT).map flipWriter

/-! ## Sequential traces of public operations -/

/-- One call of the public interface. `assign g` is a mutation `g` applied through
the reference just obtained from `getWriteRef`; `getReadRef` reads through the
reference just obtained. -/
inductive Op (T : Type) where
  | write (v : T)
  | assign (g : T → T)
  | flipWriter
  | update (v : T)
  | newSnap
  | snap
  | getReadRef
  | readLast

/-- What a call hands back to its caller. -/
inductive Ret (T : Type) where
  | unit
  | bool (b : Bool)
  | val (v : T)
deriving DecidableEq, Repr

/-- Effect of one call on the object; `none` when a slot access is out of range. -/
def step (op : Op T) (s : TripleBuffer T) : Option (Ret T × TripleBuffer T) :=
  match op with
  | .write v => (write s v).map (fun s1 => (Ret.unit, s1))
  | .assign g => (assignRef s (getWriteRef s) g).map (fun s1 => (Ret.unit, s1))
  | .flipWriter => some (Ret.unit, flipWriter s)
  | .update v => (update s v).map (fun s1 => (Ret.unit, s1))
  | .newSnap => some (Ret.bool (newSnap s).1, (newSnap s).2)
  | .snap => (snap s).map (fun v => (Ret.val v, s))
  | .getReadRef => (deref s (getReadRef s)).map (fun v => (Ret.val v, s))
  | .readLast => ((readLast s).1).map (fun v => (Ret.val v, (readLast s).2))

/-- Effect of a finite sequence of calls: the results in order and the final state. -/
def run : List (Op T) → TripleBuffer T → Option (List (Ret T) × TripleBuffer T)
  | [], s => some ([], s)
  | op :: ops, s =>
    match step op s with
    | none => none
    | some (r, s1) =>
      match run ops s1 with
      | none => none
      | some (rs, s2) => some (r :: rs, s2)

/-- States reachable from either constructor by public operations. -/
inductive Reachable : TripleBuffer T → Prop where
  | ctor (v : T) : Reachable (init v)
  | ctorDefault [Inhabited T] : Reachable (initDefault : TripleBuffer T)
  | step {s s1 : TripleBuffer T} (op : Op T) (r : Ret T) :
      Reachable s → step op s = some (r, s1) → Reachable s1

/-- Writer-side calls. -/
def Op.isWriter : Op T → Bool
  | .write _ | .assign _ | .flipWriter | .update _ => true
  | _ => false

/-- Reader-side calls. -/
def Op.isReader : Op T → Bool
  | .newSnap | .snap | .getReadRef | .readLast => true
  | _ => false

/-! ## Specification-side vocabulary -/

/-- The role triple decoded from a flags value is a permutation of `0, 1, 2`. -/
def RolesPerm (flags : Nat) : Prop :=
  List.Perm [dirtyIndex flags, cleanIndex flags, snapIndex flags] [0, 1, 2]

instance (flags : Nat) : Decidable (RolesPerm flags) := by
  unfold RolesPerm; infer_instance

/-- Calls that publish: `flipWriter`, directly or inside `update`. -/
def Op.isFlip : Op T → Bool
  | .flipWriter | .update _ => true
  | _ => false

/-- Calls that only touch slot contents or only read: `write`, assignment through
`getWriteRef`, `snap`, `getReadRef`. -/
def Op.isQuiet : Op T → Bool
  | .write _ | .assign _ | .snap | .getReadRef => true
  | _ => false

/-- Whether the call `op`, issued in state `s`, contains a `newSnap` that returns
true (`newSnap` itself, or the one inside `readLast`). -/
def acquiresAt (op : Op T) (s : TripleBuffer T) : Bool :=
  match op with
  | .newSnap | .readLast => (newSnap s).1
  | _ => false

/-- Whether some `newSnap` returns true along a trace started in state `s`. -/
def acquires : List (Op T) → TripleBuffer T → Bool
  | [], _ => false
  | op :: ops, s =>
    acquiresAt op s ||
      match step op s with
      | some (_, s1) => acquires ops s1
      | none => false

/-- The three ways to publish a value `v`. -/
inductive PubKind where
  | viaWrite
  | viaRef
  | viaUpdate
deriving DecidableEq, Repr

/-- One publication of `v`: store `v` into the dirty slot, then `flipWriter`. -/
def publish : PubKind × T → List (Op T)
  | (.viaWrite, v) => [.write v, .flipWriter]
  | (.viaRef, v) => [.assign (fun _ => v), .flipWriter]
  | (.viaUpdate, v) => [.update v]

/-- A run of publications, one after the other. -/
def pubOps : List (PubKind × T) → List (Op T)
  | [] => []
  | p :: ps => publish p ++ pubOps ps

/-- Expected result of a call while the snapshot value is `v` and nothing is
acquired: writer calls return nothing, `newSnap` returns `false`, reads return `v`. -/
def stableRet (v : T) : Op T → Ret T
  | .write _ | .assign _ | .flipWriter | .update _ => .unit
  | .newSnap => .bool false
  | .snap | .getReadRef | .readLast => .val v

/-- The value most recently published once the call `op` has been issued in state
`s`, with `p` the value published before: a `flipWriter` publishes the content the
dirty slot holds at that moment (inside `update v`, after its `write`). -/
def publishedAt (op : Op T) (s : TripleBuffer T) (p : T) : T :=
  match op with
  | .flipWriter => (s.buffer.get? (dirtyIndex s.flags)).getD p
  | .update v =>
    ((write s v).bind (fun s1 => s1.buffer.get? (dirtyIndex s1.flags))).getD p
  | _ => p

/-- The value most recently published along a trace that starts in state `s` with
`p` the value published so far. -/
def published : List (Op T) → TripleBuffer T → T → T
  | [], _, p => p
  | op :: ops, s, p =>
    match step op s with
    | some (_, s1) => published ops s1 (publishedAt op s p)
    | none => publishedAt op s p

/-- The argument of the most recent `update` in a trace, `p` when there is none. -/
def lastUpdate : List (Op T) → T → T
  | [], p => p
  | .update v :: ops, _ => lastUpdate ops v
  | _ :: ops, p => lastUpdate ops p

/-- Whether a `flipWriter` has occurred after the last `newSnap` that returned true,
once the call `op` has been issued in state `s`, with `p` the answer before. -/
def flipPendingAt (op : Op T) (s : TripleBuffer T) (p : Bool) : Bool :=
  match op with
  | .flipWriter | .update _ => true
  | .newSnap | .readLast => if (newSnap s).1 then false else p
  | _ => p

/-- Whether a `flipWriter` has occurred after the last `newSnap` that returned
true, along a trace that starts in state `s` where the answer so far is `p`. -/
def flipPending : List (Op T) → TripleBuffer T → Bool → Bool
  | [], _, p => p
  | op :: ops, s, p =>
    match step op s with
    | some (_, s1) => flipPending ops s1 (flipPendingAt op s p)
    | none => flipPendingAt op s p

/-- Reading of a trace by call names only: a publication (`flipWriter`, `update`)
answers true, an acquisition (`newSnap`, `readLast`) answers false, any other call
keeps the answer `p`. -/
def flipAfter (op : Op T) (p : Bool) : Bool :=
  match op with
  | .flipWriter | .update _ => true
  | .newSnap | .readLast => false
  | _ => p

/-- Whether the last role-changing call of a trace is a publication rather than an
acquisition; `p` when the trace has no role-changing call. -/
def lastIsFlip : List (Op T) → Bool → Bool
  | [], p => p
  | op :: ops, p => lastIsFlip ops (flipAfter op p)

/-! ## Interleaved execution

Several callers share one object.  Each `flags.load` and each
`compare_exchange_weak` is one atomic step; a caller keeps its local `flagsNow`
between the steps of `flipWriter` and `newSnap`.  A reference obtained from
`getWriteRef` (`getReadRef`) is used until the caller's next `flipWriter`
(`newSnap`) changes the role of the referenced slot, and is obtained again after
that. -/

/-- Where a caller stands: between calls, or at the `while` of `flipWriter` or of
`newSnap` with its local `flagsNow`. -/
inductive Pc where
  | idle
  | inFlip (flagsNow : Nat)
  | inSnap (flagsNow : Nat)
deriving DecidableEq, Repr

/-- Local state of one caller: where it stands, the slot index it holds from
`getWriteRef`/`write`, and the slot index it holds from `getReadRef`/`snap`. -/
structure Caller where
  pc : Pc
  wref : Option Nat
  rref : Option Nat
deriving DecidableEq, Repr

/-- The shared object and the callers, numbered from 0. -/
structure Conc (T : Type) where
  mem : TripleBuffer T
  callers : List Caller
deriving DecidableEq, Repr

/-- One atomic step of caller `t`. -/
inductive Act (T : Type) where
  | getWriteRef (t : Nat)
  | store (t : Nat) (g : T → T)
  | getReadRef (t : Nat)
  | fetch (t : Nat)
  | flipLoad (t : Nat)
  | snapLoad (t : Nat)
  | cas (t : Nat) (spurious : Bool)

/-- The caller that takes the step. -/
def Act.tid : Act T → Nat
  | .getWriteRef t | .store t _ | .getReadRef t | .fetch t
  | .flipLoad t | .snapLoad t | .cas t _ => t

/-- Steps that start or belong to a writer-side call. -/
def Act.isWriterAct : Act T → Bool
  | .getWriteRef _ | .store _ _ | .flipLoad _ => true
  | _ => false

/-- Steps that start or belong to a reader-side call. -/
def Act.isReaderAct : Act T → Bool
  | .getReadRef _ | .fetch _ | .snapLoad _ => true
  | _ => false

/-- One `compare_exchange_weak`, which may also fail spuriously: then nothing is
stored and `expected` is reloaded. -/
def casStep (spurious : Bool) (reg expected desired : Nat) : Bool × Nat × Nat :=
  if spurious then (false, reg, reg) else compare_exchange_weak reg expected desired

/-- Effect of one atomic step: what the call returns if it ends with this step, and
the new state; `none` when the caller cannot take this step. -/
def cstep (a : Act T) (c : Conc T) : Option (Option (Ret T) × Conc T) :=
  match c.callers[a.tid]? with
  | none => none
  | some me =>
    match a, me.pc with
    | .getWriteRef t, .idle =>
      some (none, { c with callers := c.callers.set t { me with wref := some (getWriteRef c.mem) } })
    | .store _ g, .idle =>
      match me.wref with
      | none => none
      | some ref => (assignRef c.mem ref g).map (fun m => (none, { c with mem := m }))
    | .getReadRef t, .idle =>
      some (none, { c with callers := c.callers.set t { me with rref := some (getReadRef c.mem) } })
    | .fetch _, .idle =>
      match me.rref with
      | none => none
      | some ref => (deref c.mem ref).map (fun v => (some (Ret.val v), c))
    | .flipLoad t, .idle =>
      some (none, { c with callers := c.callers.set t { me with pc := .inFlip c.mem.flags } })
    | .snapLoad t, .idle =>
      if !isNewWrite c.mem.flags then some (some (Ret.bool false), c)
      else some (none,
        { c with callers := c.callers.set t { me with pc := .inSnap c.mem.flags } })
    | .cas t sp, .inFlip flagsNow =>
      match casStep sp c.mem.flags flagsNow (newWriteSwapCleanWithDirty flagsNow) with
      | (true, reg, _) =>
        some (some Ret.unit,
          { mem := { c.mem with flags := reg },
            callers := c.callers.set t { me with pc := .idle, wref := none } })
      | (false, _, fn) =>
        some (none, { c with callers := c.callers.set t { me with pc := .inFlip fn } })
    | .cas t sp, .inSnap flagsNow =>
      match casStep sp c.mem.flags flagsNow (swapSnapWithClean flagsNow) with
      | (true, reg, _) =>
        some (some (Ret.bool true),
          { mem := { c.mem with flags := reg },
            callers := c.callers.set t { me with pc := .idle, rref := none } })
      | (false, _, fn) =>
        some (none, { c with callers := c.callers.set t { me with pc := .inSnap fn } })
    | _, _ => none

/-- Effect of a finite interleaving: what each step returned, and the final state. -/
def crun : List (Act T) → Conc T → Option (List (Option (Ret T)) × Conc T)
  | [], c => some ([], c)
  | a :: acts, c =>
    match cstep a c with
    | none => none
    | some (r, c1) =>
      match crun acts c1 with
      | none => none
      | some (rs, c2) => some (r :: rs, c2)

/-- A freshly constructed object shared by `n` callers, all between calls. -/
def cinit (n : Nat) (v : T) : Conc T :=
  { mem := init v, callers := List.replicate n ⟨.idle, none, none⟩ }

/-- Exactly one writer, caller 0, and one reader, caller 1. -/
def OneWriterOneReader (acts : List (Act T)) : Prop :=
  ∀ a ∈ acts, (a.isWriterAct = true → a.tid = 0) ∧ (a.isReaderAct = true → a.tid = 1)

/-- The slot a step publishes: the dirty slot of the register, when the step is a
compare-exchange of `flipWriter` that commits. -/
def flipCommitSlot (a : Act T) (c : Conc T) : Option Nat :=
  match a with
  | .cas t false =>
    match c.callers[t]? with
    | some me =>
      match me.pc with
      | .inFlip fn => if c.mem.flags = fn then some (dirtyIndex c.mem.flags) else none
      | _ => none
    | none => none
  | _ => none

/-- The slot published by the most recent committed `flipWriter` of an interleaving,
`p` when none has committed. -/
def publishedSlot : List (Act T) → Conc T → Option Nat → Option Nat
  | [], _, p => p
  | a :: acts, c, p =>
    let p1 : Option Nat :=
      match flipCommitSlot a c with
      | some i => some i
      | none => p
    match cstep a c with
    | some (_, c1) => publishedSlot acts c1 p1
    | none => p1

/-- The cases of `cstep`, one constructor per kind of atomic step; `cstep_cases` below
shows that every step of `cstep` is one of them. -/
inductive CStep : Act T → Conc T → Option (Ret T) → Conc T → Prop where
  | getWriteRef (t : Nat) (c : Conc T) (me : Caller) :
      c.callers[t]? = some me → me.pc = .idle →
      CStep (.getWriteRef t) c none
        { c with callers := c.callers.set t { me with wref := some (dirtyIndex c.mem.flags) } }
  | store (t : Nat) (g : T → T) (c : Conc T) (me : Caller) (i : Nat) (b : Buffer3 T) :
      c.callers[t]? = some me → me.pc = .idle → me.wref = some i →
      c.mem.buffer.modify? g i = some b →
      CStep (.store t g) c none { c with mem := { c.mem with buffer := b } }
  | getReadRef (t : Nat) (c : Conc T) (me : Caller) :
      c.callers[t]? = some me → me.pc = .idle →
      CStep (.getReadRef t) c none
        { c with callers := c.callers.set t { me with rref := some (snapIndex c.mem.flags) } }
  | fetch (t : Nat) (c : Conc T) (me : Caller) (j : Nat) (v : T) :
      c.callers[t]? = some me → me.pc = .idle → me.rref = some j →
      c.mem.buffer.get? j = some v →
      CStep (.fetch t) c (some (Ret.val v)) c
  | flipLoad (t : Nat) (c : Conc T) (me : Caller) :
      c.callers[t]? = some me → me.pc = .idle →
      CStep (.flipLoad t) c none
        { c with callers := c.callers.set t { me with pc := .inFlip c.mem.flags } }
  | snapLoadIdle (t : Nat) (c : Conc T) (me : Caller) :
      c.callers[t]? = some me → me.pc = .idle → isNewWrite c.mem.flags = false →
      CStep (.snapLoad t) c (some (Ret.bool false)) c
  | snapLoad (t : Nat) (c : Conc T) (me : Caller) :
      c.callers[t]? = some me → me.pc = .idle → isNewWrite c.mem.flags = true →
      CStep (.snapLoad t) c none
        { c with callers := c.callers.set t { me with pc := .inSnap c.mem.flags } }
  | flipCommit (t : Nat) (c : Conc T) (me : Caller) :
      c.callers[t]? = some me → me.pc = .inFlip c.mem.flags →
      CStep (.cas t false) c (some Ret.unit)
        { mem := { c.mem with flags := newWriteSwapCleanWithDirty c.mem.flags },
          callers := c.callers.set t { me with pc := .idle, wref := none } }
  | flipRetry (t : Nat) (sp : Bool) (c : Conc T) (me : Caller) (fn : Nat) :
      c.callers[t]? = some me → me.pc = .inFlip fn → (sp = true ∨ c.mem.flags ≠ fn) →
      CStep (.cas t sp) c none
        { c with callers := c.callers.set t { me with pc := .inFlip c.mem.flags } }
  | snapCommit (t : Nat) (c : Conc T) (me : Caller) :
      c.callers[t]? = some me → me.pc = .inSnap c.mem.flags →
      CStep (.cas t false) c (some (Ret.bool true))
        { mem := { c.mem with flags := swapSnapWithClean c.mem.flags },
          callers := c.callers.set t { me with pc := .idle, rref := none } }
  | snapRetry (t : Nat) (sp : Bool) (c : Conc T) (me : Caller) (fn : Nat) :
      c.callers[t]? = some me → me.pc = .inSnap fn → (sp = true ∨ c.mem.flags ≠ fn) →
      CStep (.cas t sp) c none
        { c with callers := c.callers.set t { me with pc := .inSnap c.mem.flags } }

/-- What holds of caller `t` in an interleaving with one writer (caller 0) and one
reader (caller 1): a held write reference belongs to caller 0 and designates the
dirty slot; only caller 0 is inside `flipWriter`; a held read reference belongs to
caller 1 and designates the snap slot; only caller 1 is inside the loop of `newSnap`,
and then a publication is pending. -/
def CallerOK (reg : Nat) (t : Nat) (me : Caller) : Prop :=
  (∀ i, me.wref = some i → t = 0 ∧ i = dirtyIndex reg) ∧
  (∀ fn, me.pc = .inFlip fn → t = 0) ∧
  (∀ j, me.rref = some j → t = 1 ∧ j = snapIndex reg) ∧
  (∀ fn, me.pc = .inSnap fn → t = 1 ∧ isNewWrite reg = true)

/-- The invariant of interleavings with one writer and one reader. -/
def ConcOK (c : Conc T) : Prop :=
  RolesPerm c.mem.flags ∧ ∀ t me, c.callers[t]? = some me → CallerOK c.mem.flags t me

/-! ## Basic facts about the register functions -/

theorem casLoop_self (f : Nat → Nat) (r : Nat) : casLoop f r r = f r := by
  rw [casLoop]
  split
  · rename_i reg1 x h
    simp only [compare_exchange_weak, if_true, Prod.mk.injEq, true_and] at h
    exact h.1.symm
  · rename_i reg1 x h
    simp [compare_exchange_weak] at h

theorem land_byte (f m : Nat) (hm : m < 256) : f &&& m = (f % 256) &&& m := by
  have h1 : f % 256 = f &&& 255 := (Nat.and_pow_two_sub_one_eq_mod f 8).symm
  have h2 : (255 : Nat) &&& m = m := by
    interval_cases m <;> decide
  rw [h1, Nat.and_assoc, h2]

theorem dirtyIndex_byte (f : Nat) : dirtyIndex f = dirtyIndex (f % 256) := by
  unfold dirtyIndex; rw [land_byte f 0x30 (by decide)]

theorem cleanIndex_byte (f : Nat) : cleanIndex f = cleanIndex (f % 256) := by
  unfold cleanIndex; rw [land_byte f 0xC (by decide)]

theorem snapIndex_byte (f : Nat) : snapIndex f = snapIndex (f % 256) := by
  unfold snapIndex; rw [land_byte f 0x3 (by decide)]

theorem isNewWrite_byte (f : Nat) : isNewWrite f = isNewWrite (f % 256) := by
  unfold isNewWrite; rw [land_byte f 0x40 (by decide)]

theorem swapSnapWithClean_byte (f : Nat) :
    swapSnapWithClean f = swapSnapWithClean (f % 256) := by
  unfold swapSnapWithClean
  simp only []
  rw [land_byte f 0x30 (by decide), land_byte f 0x3 (by decide), land_byte f 0xC (by decide)]

theorem newWriteSwapCleanWithDirty_byte (f : Nat) :
    newWriteSwapCleanWithDirty f = newWriteSwapCleanWithDirty (f % 256) := by
  unfold newWriteSwapCleanWithDirty
  rw [land_byte f 0x30 (by decide), land_byte f 0x3 (by decide), land_byte f 0xC (by decide)]

theorem rolesPerm_byte (f : Nat) : RolesPerm f ↔ RolesPerm (f % 256) := by
  unfold RolesPerm
  rw [dirtyIndex_byte f, cleanIndex_byte f, snapIndex_byte f]

set_option maxRecDepth 100000 in
theorem swap_fields_byte : ∀ g, g < 256 →
    dirtyIndex (swapSnapWithClean g) = dirtyIndex g ∧
    cleanIndex (swapSnapWithClean g) = snapIndex g ∧
    snapIndex (swapSnapWithClean g) = cleanIndex g ∧
    isNewWrite (swapSnapWithClean g) = false := by
  decide

set_option maxRecDepth 100000 in
theorem flip_fields_byte : ∀ g, g < 256 →
    dirtyIndex (newWriteSwapCleanWithDirty g) = cleanIndex g ∧
    cleanIndex (newWriteSwapCleanWithDirty g) = dirtyIndex g ∧
    snapIndex (newWriteSwapCleanWithDirty g) = snapIndex g ∧
    isNewWrite (newWriteSwapCleanWithDirty g) = true := by
  decide

set_option maxRecDepth 100000 in
theorem rolesPerm_facts_byte : ∀ g, g < 256 → RolesPerm g →
    dirtyIndex g < 3 ∧ cleanIndex g < 3 ∧ snapIndex g < 3 ∧
    dirtyIndex g ≠ cleanIndex g ∧ dirtyIndex g ≠ snapIndex g ∧
    cleanIndex g ≠ snapIndex g := by
  decide

set_option maxRecDepth 100000 in
theorem rolesPerm_preserved_byte : ∀ g, g < 256 → RolesPerm g →
    RolesPerm (swapSnapWithClean g) ∧ RolesPerm (newWriteSwapCleanWithDirty g) := by
  decide

/-- Field-level effect of `swapSnapWithClean` on any register value. -/
theorem swap_fields (f : Nat) :
    dirtyIndex (swapSnapWithClean f) = dirtyIndex f ∧
    cleanIndex (swapSnapWithClean f) = snapIndex f ∧
    snapIndex (swapSnapWithClean f) = cleanIndex f ∧
    isNewWrite (swapSnapWithClean f) = false := by
  rw [swapSnapWithClean_byte, dirtyIndex_byte f, cleanIndex_byte f, snapIndex_byte f]
  exact swap_fields_byte _ (Nat.mod_lt _ (by decide))

/-- Field-level effect of `newWriteSwapCleanWithDirty` on any register value. -/
theorem flip_fields (f : Nat) :
    dirtyIndex (newWriteSwapCleanWithDirty f) = cleanIndex f ∧
    cleanIndex (newWriteSwapCleanWithDirty f) = dirtyIndex f ∧
    snapIndex (newWriteSwapCleanWithDirty f) = snapIndex f ∧
    isNewWrite (newWriteSwapCleanWithDirty f) = true := by
  rw [newWriteSwapCleanWithDirty_byte, dirtyIndex_byte f, cleanIndex_byte f, snapIndex_byte f]
  exact flip_fields_byte _ (Nat.mod_lt _ (by decide))

theorem rolesPerm_facts (f : Nat) (h : RolesPerm f) :
    dirtyIndex f < 3 ∧ cleanIndex f < 3 ∧ snapIndex f < 3 ∧
    dirtyIndex f ≠ cleanIndex f ∧ dirtyIndex f ≠ snapIndex f ∧
    cleanIndex f ≠ snapIndex f := by
  rw [dirtyIndex_byte f, cleanIndex_byte f, snapIndex_byte f]
  exact rolesPerm_facts_byte _ (Nat.mod_lt _ (by decide)) ((rolesPerm_byte f).1 h)

theorem rolesPerm_swap (f : Nat) (h : RolesPerm f) : RolesPerm (swapSnapWithClean f) := by
  rw [swapSnapWithClean_byte]
  exact (rolesPerm_preserved_byte _ (Nat.mod_lt _ (by decide)) ((rolesPerm_byte f).1 h)).1

theorem rolesPerm_flip (f : Nat) (h : RolesPerm f) :
    RolesPerm (newWriteSwapCleanWithDirty f) := by
  rw [newWriteSwapCleanWithDirty_byte]
  exact (rolesPerm_preserved_byte _ (Nat.mod_lt _ (by decide)) ((rolesPerm_byte f).1 h)).2

theorem isNewWrite_iff (f : Nat) : isNewWrite f = true ↔ f &&& 0x40 ≠ 0 := by
  simp [isNewWrite]

theorem isNewWrite_false_iff (f : Nat) : isNewWrite f = false ↔ f &&& 0x40 = 0 := by
  simp [isNewWrite]

/-! ## The members without the retry loop -/

theorem flipWriter_eq (s : TripleBuffer T) :
    flipWriter s = { s with flags := newWriteSwapCleanWithDirty s.flags } := by
  simp [flipWriter, casLoop_self]

theorem newSnap_eq (s : TripleBuffer T) :
    newSnap s = if isNewWrite s.flags then
      (true, { s with flags := swapSnapWithClean s.flags }) else (false, s) := by
  unfold newSnap
  cases h : isNewWrite s.flags <;> simp [casLoop_self, h]

/-! ## Slot accesses -/

theorem Buffer3.get?_lt (b : Buffer3 T) {i : Nat} (h : i < 3) : ∃ v, b.get? i = some v := by
  rcases i with _ | _ | _ | n
  · exact ⟨_, rfl⟩
  · exact ⟨_, rfl⟩
  · exact ⟨_, rfl⟩
  · omega

theorem Buffer3.modify?_lt (b : Buffer3 T) (g : T → T) {i : Nat} (h : i < 3) :
    ∃ b1, b.modify? g i = some b1 := by
  rcases i with _ | _ | _ | n
  · exact ⟨_, rfl⟩
  · exact ⟨_, rfl⟩
  · exact ⟨_, rfl⟩
  · omega

theorem Buffer3.get?_modify?_same {b b1 : Buffer3 T} {g : T → T} {i : Nat}
    (h : b.modify? g i = some b1) : b1.get? i = (b.get? i).map g := by
  rcases i with _ | _ | _ | n <;> simp [Buffer3.modify?] at h <;> subst h <;>
    simp [Buffer3.get?]

theorem Buffer3.get?_modify?_ne {b b1 : Buffer3 T} {g : T → T} {i j : Nat}
    (h : b.modify? g i = some b1) (hne : j ≠ i) : b1.get? j = b.get? j := by
  rcases i with _ | _ | _ | n <;> simp [Buffer3.modify?] at h <;> subst h <;>
    rcases j with _ | _ | _ | m <;> simp [Buffer3.get?] at hne ⊢

/-! ## One call, in terms of the decoded fields -/

theorem step_write (s : TripleBuffer T) (v : T) :
    step (.write v) s = (s.buffer.modify? (fun _ => v) (dirtyIndex s.flags)).map
      (fun b => (Ret.unit, { s with buffer := b })) := by
  simp [step, write, dirtyIndex, Option.map_map, Function.comp_def]

theorem step_assign (s : TripleBuffer T) (g : T → T) :
    step (.assign g) s = (s.buffer.modify? g (dirtyIndex s.flags)).map
      (fun b => (Ret.unit, { s with buffer := b })) := by
  simp [step, assignRef, getWriteRef, dirtyIndex, Option.map_map, Function.comp_def]

theorem step_flipWriter (s : TripleBuffer T) :
    step .flipWriter s =
      some (Ret.unit, { s with flags := newWriteSwapCleanWithDirty s.flags }) := by
  simp [step, flipWriter_eq]

theorem step_update (s : TripleBuffer T) (v : T) :
    step (.update v) s = (s.buffer.modify? (fun _ => v) (dirtyIndex s.flags)).map
      (fun b => (Ret.unit,
        { flags := newWriteSwapCleanWithDirty s.flags, buffer := b })) := by
  simp [step, update, write, dirtyIndex, Option.map_map, Function.comp_def, flipWriter_eq]

theorem step_newSnap (s : TripleBuffer T) :
    step .newSnap s = some (if isNewWrite s.flags then
      (Ret.bool true, { s with flags := swapSnapWithClean s.flags })
      else (Ret.bool false, s)) := by
  simp only [step, newSnap_eq]
  cases isNewWrite s.flags <;> simp

theorem step_snap (s : TripleBuffer T) :
    step .snap s = (s.buffer.get? (snapIndex s.flags)).map (fun v => (Ret.val v, s)) := by
  simp [step, snap, snapIndex]

theorem step_getReadRef (s : TripleBuffer T) :
    step .getReadRef s =
      (s.buffer.get? (snapIndex s.flags)).map (fun v => (Ret.val v, s)) := by
  simp [step, deref, getReadRef, snapIndex]

theorem step_readLast (s : TripleBuffer T) :
    step .readLast s = if isNewWrite s.flags then
      (s.buffer.get? (cleanIndex s.flags)).map
        (fun v => (Ret.val v, { s with flags := swapSnapWithClean s.flags }))
      else (s.buffer.get? (snapIndex s.flags)).map (fun v => (Ret.val v, s)) := by
  simp only [step, readLast, newSnap_eq]
  cases h : isNewWrite s.flags
  · simp [snap, snapIndex]
  · have hs := (swap_fields s.flags).2.2.1
    simp only [snapIndex] at hs
    simp [snap, hs]

/-! ## The role invariant along calls -/

theorem rolesPerm_init (v : T) : RolesPerm (init v).flags := by
  show RolesPerm 6
  decide

theorem step_rolesPerm {op : Op T} {s s1 : TripleBuffer T} {r : Ret T}
    (h : RolesPerm s.flags) (hstep : step op s = some (r, s1)) : RolesPerm s1.flags := by
  cases op with
  | write v =>
    rw [step_write] at hstep
    obtain ⟨b, _, hb⟩ := Option.map_eq_some'.1 hstep
    cases hb; exact h
  | assign g =>
    rw [step_assign] at hstep
    obtain ⟨b, _, hb⟩ := Option.map_eq_some'.1 hstep
    cases hb; exact h
  | flipWriter =>
    rw [step_flipWriter] at hstep
    cases hstep; exact rolesPerm_flip _ h
  | update v =>
    rw [step_update] at hstep
    obtain ⟨b, _, hb⟩ := Option.map_eq_some'.1 hstep
    cases hb; exact rolesPerm_flip _ h
  | newSnap =>
    rw [step_newSnap] at hstep
    cases hn : isNewWrite s.flags <;> simp only [hn, if_true, if_false, Bool.false_eq_true] at hstep <;>
      cases hstep
    · exact h
    · exact rolesPerm_swap _ h
  | snap =>
    rw [step_snap] at hstep
    obtain ⟨b, _, hb⟩ := Option.map_eq_some'.1 hstep
    cases hb; exact h
  | getReadRef =>
    rw [step_getReadRef] at hstep
    obtain ⟨b, _, hb⟩ := Option.map_eq_some'.1 hstep
    cases hb; exact h
  | readLast =>
    rw [step_readLast] at hstep
    cases hn : isNewWrite s.flags <;> simp only [hn, if_true, if_false, Bool.false_eq_true] at hstep <;>
      obtain ⟨b, _, hb⟩ := Option.map_eq_some'.1 hstep <;> cases hb
    · exact h
    · exact rolesPerm_swap _ h

theorem reachable_rolesPerm {s : TripleBuffer T} (h : Reachable s) : RolesPerm s.flags := by
  induction h with
  | ctor v => exact rolesPerm_init v
  | ctorDefault => exact rolesPerm_init _
  | step op r _ hstep ih => exact step_rolesPerm ih hstep

/-- With the roles a permutation, no call of the interface leaves the array. -/
theorem step_total (op : Op T) {s : TripleBuffer T} (h : RolesPerm s.flags) :
    ∃ r s1, step op s = some (r, s1) := by
  obtain ⟨hd, hc, hs, _⟩ := rolesPerm_facts _ h
  cases op with
  | write v =>
    obtain ⟨b, hb⟩ := s.buffer.modify?_lt (fun _ => v) hd
    exact ⟨_, _, by rw [step_write, hb]; rfl⟩
  | assign g =>
    obtain ⟨b, hb⟩ := s.buffer.modify?_lt g hd
    exact ⟨_, _, by rw [step_assign, hb]; rfl⟩
  | flipWriter => exact ⟨_, _, step_flipWriter s⟩
  | update v =>
    obtain ⟨b, hb⟩ := s.buffer.modify?_lt (fun _ => v) hd
    exact ⟨_, _, by rw [step_update, hb]; rfl⟩
  | newSnap => exact ⟨_, _, step_newSnap s⟩
  | snap =>
    obtain ⟨v, hv⟩ := s.buffer.get?_lt hs
    exact ⟨_, _, by rw [step_snap, hv]; rfl⟩
  | getReadRef =>
    obtain ⟨v, hv⟩ := s.buffer.get?_lt hs
    exact ⟨_, _, by rw [step_getReadRef, hv]; rfl⟩
  | readLast =>
    obtain ⟨v, hv⟩ := s.buffer.get?_lt hs
    obtain ⟨w, hw⟩ := s.buffer.get?_lt hc
    cases hn : isNewWrite s.flags
    · exact ⟨_, _, by rw [step_readLast, hn, if_neg (by simp), hv]; rfl⟩
    · exact ⟨_, _, by rw [step_readLast, hn, if_pos rfl, hw]; rfl⟩

/-! ## Traces -/

theorem run_cons {op : Op T} {ops : List (Op T)} {s s1 s2 : TripleBuffer T} {r : Ret T}
    {rs : List (Ret T)} (h1 : step op s = some (r, s1)) (h2 : run ops s1 = some (rs, s2)) :
    run (op :: ops) s = some (r :: rs, s2) := by
  simp [run, h1, h2]

theorem run_append {a b : List (Op T)} {s s1 s2 : TripleBuffer T} {ra rb : List (Ret T)}
    (h1 : run a s = some (ra, s1)) (h2 : run b s1 = some (rb, s2)) :
    run (a ++ b) s = some (ra ++ rb, s2) := by
  induction a generalizing s ra with
  | nil =>
    simp only [run, Option.some.injEq, Prod.mk.injEq] at h1
    obtain ⟨rfl, rfl⟩ := h1
    simpa using h2
  | cons op ops ih =>
    simp only [run] at h1
    cases hst : step op s with
    | none => simp [hst] at h1
    | some p =>
      obtain ⟨r, s3⟩ := p
      simp only [hst] at h1
      cases hr : run ops s3 with
      | none => simp [hr] at h1
      | some q =>
        obtain ⟨rs, s4⟩ := q
        simp only [hr, Option.some.injEq, Prod.mk.injEq] at h1
        obtain ⟨rfl, rfl⟩ := h1
        have := ih hr
        simp [run, hst, this]

theorem run_rolesPerm {ops : List (Op T)} {s s1 : TripleBuffer T} {rs : List (Ret T)}
    (h : RolesPerm s.flags) (hrun : run ops s = some (rs, s1)) : RolesPerm s1.flags := by
  induction ops generalizing s rs with
  | nil =>
    simp only [run, Option.some.injEq, Prod.mk.injEq] at hrun
    obtain ⟨_, rfl⟩ := hrun
    exact h
  | cons op ops ih =>
    simp only [run] at hrun
    cases hst : step op s with
    | none => simp [hst] at hrun
    | some p =>
      obtain ⟨r, s3⟩ := p
      simp only [hst] at hrun
      cases hr : run ops s3 with
      | none => simp [hr] at hrun
      | some q =>
        obtain ⟨rs1, s4⟩ := q
        simp only [hr, Option.some.injEq, Prod.mk.injEq] at hrun
        obtain ⟨_, rfl⟩ := hrun
        exact ih (step_rolesPerm h hst) hr

theorem run_total (ops : List (Op T)) {s : TripleBuffer T} (h : RolesPerm s.flags) :
    ∃ rs s1, run ops s = some (rs, s1) := by
  induction ops generalizing s with
  | nil => exact ⟨_, _, rfl⟩
  | cons op ops ih =>
    obtain ⟨r, s1, hst⟩ := step_total op h
    obtain ⟨rs, s2, hr⟩ := ih (step_rolesPerm h hst)
    exact ⟨_, _, run_cons hst hr⟩

theorem reachable_run {ops : List (Op T)} {s s1 : TripleBuffer T} {rs : List (Ret T)}
    (h : Reachable s) (hrun : run ops s = some (rs, s1)) : Reachable s1 := by
  induction ops generalizing s rs with
  | nil =>
    simp only [run, Option.some.injEq, Prod.mk.injEq] at hrun
    obtain ⟨_, rfl⟩ := hrun
    exact h
  | cons op ops ih =>
    simp only [run] at hrun
    cases hst : step op s with
    | none => simp [hst] at hrun
    | some p =>
      obtain ⟨r, s3⟩ := p
      simp only [hst] at hrun
      cases hr : run ops s3 with
      | none => simp [hr] at hrun
      | some q =>
        obtain ⟨rs1, s4⟩ := q
        simp only [hr, Option.some.injEq, Prod.mk.injEq] at hrun
        obtain ⟨_, rfl⟩ := hrun
        exact ih (Reachable.step op r h hst) hr

/-- While nothing is pending, reader-side calls return the snapshot value and
leave the object as it is. -/
theorem run_readers {s : TripleBuffer T} {v : T} (hnew : isNewWrite s.flags = false)
    (hv : s.buffer.get? (snapIndex s.flags) = some v) (rs : List (Op T))
    (hrs : ∀ op ∈ rs, op.isReader = true) : run rs s = some (rs.map (stableRet v), s) := by
  induction rs with
  | nil => rfl
  | cons op ops ih =>
    have hops : ∀ o ∈ ops, o.isReader = true := fun o ho => hrs o (List.mem_cons_of_mem _ ho)
    have hop : op.isReader = true := hrs op (List.mem_cons_self _ _)
    have hst : step op s = some (stableRet v op, s) := by
      cases op with
      | newSnap => rw [step_newSnap, hnew]; rfl
      | snap => rw [step_snap, hv]; rfl
      | getReadRef => rw [step_getReadRef, hv]; rfl
      | readLast => rw [step_readLast, hnew, if_neg (by simp), hv]; rfl
      | write _ => simp [Op.isReader] at hop
      | assign _ => simp [Op.isReader] at hop
      | flipWriter => simp [Op.isReader] at hop
      | update _ => simp [Op.isReader] at hop
    simpa using run_cons hst (ih hops)

/-! ## A concrete reachable state

After `update(4)`, `update(5)`, `update(6)`, `newSnap()` on a buffer seeded with `0`
the register holds `0x18` (dirty 1, clean 2, snap 0) and the slots hold `6, 5, 0`;
after a single `update(4)` the register holds `0x52` and the slots hold `4, 0, 0`. -/

theorem run_456_newSnap :
    run [Op.update 4, .update 5, .update 6, .newSnap] (init (0 : Nat)) =
      some ([.unit, .unit, .unit, .bool true], ⟨0x18, ⟨6, 5, 0⟩⟩) := by
  simp only [run, step_update, step_newSnap]; decide

theorem reachable_456 : Reachable (⟨0x18, ⟨6, 5, 0⟩⟩ : TripleBuffer Nat) :=
  reachable_run (Reachable.ctor 0) run_456_newSnap

theorem reachable_4 : Reachable (⟨0x52, ⟨4, 0, 0⟩⟩ : TripleBuffer Nat) :=
  Reachable.step (.update 4) .unit (Reachable.ctor 0) (by rw [step_update]; decide)

/-! ## C1: the role triple is a permutation in every reachable state -/

/-- C1: in every state reachable from either constructor by any finite sequence of
public operations, the triple (dirtyIndex, cleanIndex, snapIndex) decoded from the
flags register is a permutation of 0, 1, 2. -/
theorem reachable_roles_permutation (s : TripleBuffer T) (h : Reachable s) :
    List.Perm [dirtyIndex s.flags, cleanIndex s.flags, snapIndex s.flags] [0, 1, 2] :=
  reachable_rolesPerm h

theorem reachable_roles_permutation_witness :
    Reachable (⟨0x18, ⟨6, 5, 0⟩⟩ : TripleBuffer Nat) ∧
    List.Perm [dirtyIndex 0x18, cleanIndex 0x18, snapIndex 0x18] [0, 1, 2] :=
  ⟨reachable_456, reachable_roles_permutation ⟨0x18, ⟨6, 5, 0⟩⟩ reachable_456⟩

/-! ## C3, C4: `newSnap` with and without a pending publication -/

/-- C3: on a state whose hasNewData bit (flags & 0x40) is set, newSnap returns true and
yields a state in which the bit is clear, the new snapIndex is the old cleanIndex, the
new cleanIndex is the old snapIndex, dirtyIndex is unchanged and the three slots are
unchanged. -/
theorem newSnap_pending (s : TripleBuffer T) (h : s.flags &&& 0x40 ≠ 0) :
    (newSnap s).1 = true ∧
    (newSnap s).2.flags &&& 0x40 = 0 ∧
    snapIndex (newSnap s).2.flags = cleanIndex s.flags ∧
    cleanIndex (newSnap s).2.flags = snapIndex s.flags ∧
    dirtyIndex (newSnap s).2.flags = dirtyIndex s.flags ∧
    (newSnap s).2.buffer = s.buffer := by
  have hn : isNewWrite s.flags = true := (isNewWrite_iff _).2 h
  obtain ⟨hd, hc, hs, hw⟩ := swap_fields s.flags
  rw [newSnap_eq, hn]
  exact ⟨rfl, (isNewWrite_false_iff _).1 hw, hs, hc, hd, rfl⟩

theorem newSnap_pending_witness :
    (0x52 : Nat) &&& 0x40 ≠ 0 ∧
    (newSnap (⟨0x52, ⟨4, 0, 0⟩⟩ : TripleBuffer Nat)).1 = true ∧
    (newSnap (⟨0x52, ⟨4, 0, 0⟩⟩ : TripleBuffer Nat)).2.flags &&& 0x40 = 0 ∧
    snapIndex (newSnap (⟨0x52, ⟨4, 0, 0⟩⟩ : TripleBuffer Nat)).2.flags = cleanIndex 0x52 ∧
    cleanIndex (newSnap (⟨0x52, ⟨4, 0, 0⟩⟩ : TripleBuffer Nat)).2.flags = snapIndex 0x52 ∧
    dirtyIndex (newSnap (⟨0x52, ⟨4, 0, 0⟩⟩ : TripleBuffer Nat)).2.flags = dirtyIndex 0x52 ∧
    (newSnap (⟨0x52, ⟨4, 0, 0⟩⟩ : TripleBuffer Nat)).2.buffer = ⟨4, 0, 0⟩ :=
  ⟨by decide, newSnap_pending ⟨0x52, ⟨4, 0, 0⟩⟩ (by decide)⟩

/-- C4: on a state whose hasNewData bit (flags & 0x40) is clear, newSnap returns false
and leaves the flags register and the three slots exactly as they were, so snap()
returns the same value as before the call. -/
theorem newSnap_idle (s : TripleBuffer T) (h : s.flags &&& 0x40 = 0) :
    newSnap s = (false, s) ∧
    (newSnap s).2.flags = s.flags ∧
    (newSnap s).2.buffer = s.buffer ∧
    snap (newSnap s).2 = snap s := by
  have hn : isNewWrite s.flags = false := (isNewWrite_false_iff _).2 h
  have he : newSnap s = (false, s) := by rw [newSnap_eq, hn]; rfl
  rw [he]
  exact ⟨rfl, rfl, rfl, rfl⟩

theorem newSnap_idle_witness :
    (0x18 : Nat) &&& 0x40 = 0 ∧
    newSnap (⟨0x18, ⟨6, 5, 0⟩⟩ : TripleBuffer Nat) = (false, ⟨0x18, ⟨6, 5, 0⟩⟩) ∧
    (newSnap (⟨0x18, ⟨6, 5, 0⟩⟩ : TripleBuffer Nat)).2.flags = 0x18 ∧
    (newSnap (⟨0x18, ⟨6, 5, 0⟩⟩ : TripleBuffer Nat)).2.buffer = ⟨6, 5, 0⟩ ∧
    snap (newSnap (⟨0x18, ⟨6, 5, 0⟩⟩ : TripleBuffer Nat)).2 = snap ⟨0x18, ⟨6, 5, 0⟩⟩ :=
  ⟨by decide, newSnap_idle ⟨0x18, ⟨6, 5, 0⟩⟩ (by decide)⟩

/-! ## C5: `flipWriter` -/

/-- C5: on any state, flipWriter yields a state in which hasNewData (flags & 0x40) is
set, the new cleanIndex is the old dirtyIndex, the new dirtyIndex is the old
cleanIndex, snapIndex is unchanged and the three slots are unchanged, whether or not
hasNewData was set before. -/
theorem flipWriter_effect (s : TripleBuffer T) :
    (flipWriter s).flags &&& 0x40 ≠ 0 ∧
    cleanIndex (flipWriter s).flags = dirtyIndex s.flags ∧
    dirtyIndex (flipWriter s).flags = cleanIndex s.flags ∧
    snapIndex (flipWriter s).flags = snapIndex s.flags ∧
    (flipWriter s).buffer = s.buffer := by
  obtain ⟨hd, hc, hs, hw⟩ := flip_fields s.flags
  rw [flipWriter_eq]
  exact ⟨(isNewWrite_iff _).1 hw, hc, hd, hs, rfl⟩

/-! ## C10: construction -/

/-- C10: after TripleBuffer(v), and after the default constructor with v = T(), the
flags register is 0x6 and decodes to dirtyIndex 0, cleanIndex 1, snapIndex 2,
hasNewData false, and the three slots equal v; before any writer-side operation
snap() returns v, newSnap() returns false and readLast() returns v, also after any
number of reader-side calls. -/
theorem construction [Inhabited T] (v : T) :
    (initDefault : TripleBuffer T) = init default ∧
    (init v).flags = 0x6 ∧
    dirtyIndex (init v).flags = 0 ∧
    cleanIndex (init v).flags = 1 ∧
    snapIndex (init v).flags = 2 ∧
    (init v).flags &&& 0x40 = 0 ∧
    (init v).buffer = ⟨v, v, v⟩ ∧
    snap (init v) = some v ∧
    deref (init v) (getReadRef (init v)) = some v ∧
    newSnap (init v) = (false, init v) ∧
    readLast (init v) = (some v, init v) ∧
    ∀ rs : List (Op T), (∀ op ∈ rs, op.isReader = true) →
      run rs (init v) = some (rs.map (stableRet v), init v) := by
  have hn : isNewWrite (init v).flags = false := by show isNewWrite 6 = false; decide
  have he : newSnap (init v) = (false, init v) := by rw [newSnap_eq, hn]; rfl
  have h3 : snapIndex (init v).flags = 2 := by show snapIndex 6 = 2; decide
  have hv : (init v).buffer.get? (snapIndex (init v).flags) = some v := by rw [h3]; rfl
  have hsnap : snap (init v) = some v := hv
  refine ⟨rfl, rfl, ?_, ?_, h3, ?_, rfl, hsnap, hv, he, ?_, ?_⟩
  · show dirtyIndex 6 = 0; decide
  · show cleanIndex 6 = 1; decide
  · show (6 : Nat) &&& 0x40 = 0; decide
  · simp only [readLast, he, hsnap]
  · intro rs hrs
    exact run_readers hn hv rs hrs

/-! ## C2: latest wins -/

/-- A store into the dirty slot succeeds when the index is in range, changes that
slot by `g` and leaves the other slots alone. -/
theorem store_dirty (s : TripleBuffer T) (g : T → T) (hd : dirtyIndex s.flags < 3) :
    ∃ b, s.buffer.modify? g (dirtyIndex s.flags) = some b ∧
      b.get? (dirtyIndex s.flags) = (s.buffer.get? (dirtyIndex s.flags)).map g ∧
      ∀ j, j ≠ dirtyIndex s.flags → b.get? j = s.buffer.get? j := by
  obtain ⟨b, hb⟩ := s.buffer.modify?_lt g hd
  exact ⟨b, hb, Buffer3.get?_modify?_same hb, fun j hj => Buffer3.get?_modify?_ne hb hj⟩

/-- One publication of `v` leaves `v` in the clean slot with the pending bit set. -/
theorem publish_run {s : TripleBuffer T} (h : RolesPerm s.flags) (k : PubKind) (v : T) :
    ∃ s1, run (publish (k, v)) s = some ((publish (k, v)).map (fun _ => Ret.unit), s1) ∧
      RolesPerm s1.flags ∧ isNewWrite s1.flags = true ∧
      s1.buffer.get? (cleanIndex s1.flags) = some v := by
  obtain ⟨hd, _⟩ := rolesPerm_facts _ h
  obtain ⟨b, hb, hsame, _⟩ := store_dirty s (fun _ => v) hd
  obtain ⟨w, hw⟩ := s.buffer.get?_lt hd
  obtain ⟨_, hc, _, hn⟩ := flip_fields s.flags
  have hbv : b.get? (dirtyIndex s.flags) = some v := by rw [hsame, hw]; rfl
  refine ⟨{ flags := newWriteSwapCleanWithDirty s.flags, buffer := b }, ?_,
    rolesPerm_flip _ h, hn, ?_⟩
  · cases k with
    | viaWrite =>
      have h1 : step (.write v) s = some (Ret.unit, { s with buffer := b }) := by
        rw [step_write, hb]; rfl
      exact run_cons h1 (run_cons (step_flipWriter _) rfl)
    | viaRef =>
      have h1 : step (.assign (fun _ => v)) s = some (Ret.unit, { s with buffer := b }) := by
        rw [step_assign, hb]; rfl
      exact run_cons h1 (run_cons (step_flipWriter _) rfl)
    | viaUpdate =>
      have h1 : step (.update v) s =
          some (Ret.unit, { flags := newWriteSwapCleanWithDirty s.flags, buffer := b }) := by
        rw [step_update, hb]; rfl
      exact run_cons h1 rfl
  · show b.get? (cleanIndex (newWriteSwapCleanWithDirty s.flags)) = some v
    rw [hc]; exact hbv

/-- A non-empty run of publications leaves the last value in the clean slot with the
pending bit set. -/
theorem pubOps_run (pubs : List (PubKind × T)) (hne : pubs ≠ []) {s : TripleBuffer T}
    (h : RolesPerm s.flags) :
    ∃ s1, run (pubOps pubs) s = some ((pubOps pubs).map (fun _ => Ret.unit), s1) ∧
      RolesPerm s1.flags ∧ isNewWrite s1.flags = true ∧
      s1.buffer.get? (cleanIndex s1.flags) = some (pubs.getLast hne).2 := by
  induction pubs generalizing s with
  | nil => exact absurd rfl hne
  | cons p ps ih =>
    obtain ⟨k, v⟩ := p
    obtain ⟨s1, hr1, hp1, hn1, hv1⟩ := publish_run h k v
    cases ps with
    | nil =>
      refine ⟨s1, ?_, hp1, hn1, hv1⟩
      simpa [pubOps] using hr1
    | cons q qs =>
      obtain ⟨s2, hr2, hp2, hn2, hv2⟩ := ih (List.cons_ne_nil q qs) hp1
      refine ⟨s2, ?_, hp2, hn2, ?_⟩
      · have := run_append hr1 hr2
        simpa [pubOps] using this
      · rw [List.getLast_cons (List.cons_ne_nil q qs)]
        exact hv2

/-- C2: from every reachable state, after a non-empty run of publications v1..vn (each a
store of vi into the dirty slot through write, through getWriteRef or inside update,
followed by flipWriter) with no newSnap in between, newSnap returns true, readLast
returns vn, and in any continuation made of reader-side calls only every read returns
vn and every further newSnap returns false. -/
theorem latest_wins (s : TripleBuffer T) (hs : Reachable s) (pubs : List (PubKind × T))
    (hne : pubs ≠ []) (rs : List (Op T)) (hrs : ∀ op ∈ rs, op.isReader = true) :
    ∃ s1,
      run (pubOps pubs ++ .newSnap :: rs) s =
        some ((pubOps pubs).map (fun _ => Ret.unit) ++
          Ret.bool true :: rs.map (stableRet (pubs.getLast hne).2), s1) ∧
      run (pubOps pubs ++ .readLast :: rs) s =
        some ((pubOps pubs).map (fun _ => Ret.unit) ++
          Ret.val (pubs.getLast hne).2 :: rs.map (stableRet (pubs.getLast hne).2), s1) := by
  obtain ⟨s1, hr1, hp1, hn1, hv1⟩ := pubOps_run pubs hne (reachable_rolesPerm hs)
  obtain ⟨_, _, hsn, hnw⟩ := swap_fields s1.flags
  have hv2 : ({ s1 with flags := swapSnapWithClean s1.flags } : TripleBuffer T).buffer.get?
      (snapIndex (swapSnapWithClean s1.flags)) = some (pubs.getLast hne).2 := by
    rw [hsn]; exact hv1
  have hrest := @run_readers T { s1 with flags := swapSnapWithClean s1.flags } _ hnw hv2 rs hrs
  refine ⟨{ s1 with flags := swapSnapWithClean s1.flags }, ?_, ?_⟩
  · have h1 : step .newSnap s1 =
        some (Ret.bool true, { s1 with flags := swapSnapWithClean s1.flags }) := by
      rw [step_newSnap, hn1]; rfl
    exact run_append hr1 (run_cons h1 hrest)
  · have h1 : step .readLast s1 =
        some (Ret.val (pubs.getLast hne).2, { s1 with flags := swapSnapWithClean s1.flags }) := by
      rw [step_readLast, hn1, if_pos rfl, hv1]; rfl
    exact run_append hr1 (run_cons h1 hrest)

theorem latest_wins_witness :
    (∃ s1,
      run [Op.update 4, .update 5, .update 6, .newSnap] (init (0 : Nat)) =
        some ([.unit, .unit, .unit, .bool true], s1) ∧
      run [Op.update 4, .update 5, .update 6, .readLast] (init (0 : Nat)) =
        some ([.unit, .unit, .unit, .val 6], s1)) ∧
    (∃ s1,
      run [Op.assign (fun _ => [1, 2, 3]), .flipWriter, .newSnap, .getReadRef]
          (initDefault : TripleBuffer (List Nat)) =
        some ([.unit, .unit, .bool true, .val [1, 2, 3]], s1) ∧
      run [Op.assign (fun _ => [1, 2, 3]), .flipWriter, .readLast, .getReadRef]
          (initDefault : TripleBuffer (List Nat)) =
        some ([.unit, .unit, .val [1, 2, 3], .val [1, 2, 3]], s1)) :=
  ⟨latest_wins (init 0) (Reachable.ctor 0)
      [(.viaUpdate, 4), (.viaUpdate, 5), (.viaUpdate, 6)] (by simp) [] (by simp),
   latest_wins initDefault Reachable.ctorDefault
      [(.viaRef, [1, 2, 3])] (by simp) [.getReadRef] (by simp [Op.isReader])⟩

/-! ## C6: snapshot stability -/

theorem newSnap_fst (s : TripleBuffer T) : (newSnap s).1 = isNewWrite s.flags := by
  rw [newSnap_eq]; cases isNewWrite s.flags <;> rfl

/-- A call that acquires nothing returns its stable result and keeps the content of
the snap slot. -/
theorem stable_step {op : Op T} {s s1 : TripleBuffer T} {r : Ret T} {v : T}
    (h : RolesPerm s.flags) (hv : s.buffer.get? (snapIndex s.flags) = some v)
    (hstep : step op s = some (r, s1)) (hacq : acquiresAt op s = false) :
    r = stableRet v op ∧ s1.buffer.get? (snapIndex s1.flags) = some v := by
  obtain ⟨hd, _, _, _, hds, _⟩ := rolesPerm_facts _ h
  obtain ⟨_, _, hfs, _⟩ := flip_fields s.flags
  cases op with
  | write w =>
    rw [step_write] at hstep
    obtain ⟨b, hb, he⟩ := Option.map_eq_some'.1 hstep
    cases he
    exact ⟨rfl, by rw [← hv]; exact Buffer3.get?_modify?_ne hb (Ne.symm hds)⟩
  | assign g =>
    rw [step_assign] at hstep
    obtain ⟨b, hb, he⟩ := Option.map_eq_some'.1 hstep
    cases he
    exact ⟨rfl, by rw [← hv]; exact Buffer3.get?_modify?_ne hb (Ne.symm hds)⟩
  | flipWriter =>
    rw [step_flipWriter] at hstep
    cases hstep
    exact ⟨rfl, by show s.buffer.get? (snapIndex (newWriteSwapCleanWithDirty s.flags)) = _
                   rw [hfs]; exact hv⟩
  | update w =>
    rw [step_update] at hstep
    obtain ⟨b, hb, he⟩ := Option.map_eq_some'.1 hstep
    cases he
    refine ⟨rfl, ?_⟩
    show b.get? (snapIndex (newWriteSwapCleanWithDirty s.flags)) = _
    rw [hfs, ← hv]; exact Buffer3.get?_modify?_ne hb (Ne.symm hds)
  | newSnap =>
    have hn : isNewWrite s.flags = false := by
      rw [← newSnap_fst]; exact hacq
    rw [step_newSnap, hn] at hstep
    cases hstep
    exact ⟨rfl, hv⟩
  | snap =>
    rw [step_snap, hv] at hstep
    cases hstep
    exact ⟨rfl, hv⟩
  | getReadRef =>
    rw [step_getReadRef, hv] at hstep
    cases hstep
    exact ⟨rfl, hv⟩
  | readLast =>
    have hn : isNewWrite s.flags = false := by
      rw [← newSnap_fst]; exact hacq
    rw [step_readLast, hn, if_neg (by simp), hv] at hstep
    cases hstep
    exact ⟨rfl, hv⟩

theorem stable_run {ops : List (Op T)} {s s1 : TripleBuffer T} {rs : List (Ret T)} {v : T}
    (h : RolesPerm s.flags) (hv : s.buffer.get? (snapIndex s.flags) = some v)
    (hrun : run ops s = some (rs, s1)) (hacq : acquires ops s = false) :
    rs = ops.map (stableRet v) ∧ s1.buffer.get? (snapIndex s1.flags) = some v := by
  induction ops generalizing s rs with
  | nil =>
    simp only [run, Option.some.injEq, Prod.mk.injEq] at hrun
    obtain ⟨rfl, rfl⟩ := hrun
    exact ⟨rfl, hv⟩
  | cons op ops ih =>
    simp only [run] at hrun
    cases hst : step op s with
    | none => simp [hst] at hrun
    | some p =>
      obtain ⟨r, s3⟩ := p
      simp only [hst] at hrun
      cases hr : run ops s3 with
      | none => simp [hr] at hrun
      | some q =>
        obtain ⟨rs1, s4⟩ := q
        simp only [hr, Option.some.injEq, Prod.mk.injEq] at hrun
        obtain ⟨rfl, rfl⟩ := hrun
        simp only [acquires, hst, Bool.or_eq_false_iff] at hacq
        obtain ⟨hr1, hv1⟩ := stable_step h hv hst hacq.1
        obtain ⟨hr2, hv2⟩ := ih (step_rolesPerm h hst) hv1 hr hacq.2
        exact ⟨by rw [hr1, hr2]; rfl, hv2⟩

/-- C6: in every reachable state snap() and getReadRef() return the same value and
neither changes the state; along any finite sequence of calls in which no newSnap
(direct or inside readLast) returns true, the writer-side calls and the repeated
reads leave that value in place: every read in the sequence and after it returns
it. -/
theorem snapshot_stable (s : TripleBuffer T) (hs : Reachable s) (ops : List (Op T)) :
    ∃ v rs s1,
      step .snap s = some (Ret.val v, s) ∧
      step .getReadRef s = some (Ret.val v, s) ∧
      run ops s = some (rs, s1) ∧
      (acquires ops s = false →
        rs = ops.map (stableRet v) ∧
        step .snap s1 = some (Ret.val v, s1) ∧
        step .getReadRef s1 = some (Ret.val v, s1)) := by
  have h := reachable_rolesPerm hs
  obtain ⟨_, _, hsn, _⟩ := rolesPerm_facts _ h
  obtain ⟨v, hv⟩ := s.buffer.get?_lt hsn
  obtain ⟨rs, s1, hrun⟩ := run_total ops h
  refine ⟨v, rs, s1, by rw [step_snap, hv]; rfl, by rw [step_getReadRef, hv]; rfl, hrun, ?_⟩
  intro hacq
  obtain ⟨h1, h2⟩ := stable_run h hv hrun hacq
  exact ⟨h1, by rw [step_snap, h2]; rfl, by rw [step_getReadRef, h2]; rfl⟩

theorem snapshot_stable_witness :
    Reachable (⟨0x18, ⟨6, 5, 0⟩⟩ : TripleBuffer Nat) ∧
    ∃ s1, run [Op.update 7, .update 8, .getReadRef] (⟨0x18, ⟨6, 5, 0⟩⟩ : TripleBuffer Nat) =
      some ([.unit, .unit, .val 6], s1) := by
  refine ⟨reachable_456, ?_⟩
  obtain ⟨v, rs, s1, h1, _, h3, h4⟩ :=
    snapshot_stable ⟨0x18, ⟨6, 5, 0⟩⟩ reachable_456 [Op.update 7, .update 8, .getReadRef]
  have hacq : acquires [Op.update 7, .update 8, .getReadRef]
      (⟨0x18, ⟨6, 5, 0⟩⟩ : TripleBuffer Nat) = false := by
    simp only [acquires, acquiresAt, step_update, step_getReadRef]; decide
  have hv : v = 6 := by
    rw [step_snap] at h1
    have h6 : (⟨0x18, ⟨6, 5, 0⟩⟩ : TripleBuffer Nat).buffer.get? (snapIndex 0x18) = some 6 := by
      decide
    simp only [h6, Option.map_some', Option.some.injEq, Prod.mk.injEq, Ret.val.injEq,
      and_true] at h1
    exact h1.symm
  subst hv
  exact ⟨s1, by rw [h3, (h4 hacq).1]; rfl⟩

/-! ## C7: one acquisition per pending publication -/

/-- A writer-side call succeeds in a state with permuted roles, returns nothing, and
leaves the pending bit set when it was set or when the call publishes. -/
theorem writer_step {op : Op T} {s : TripleBuffer T} (h : RolesPerm s.flags)
    (hop : op.isWriter = true) :
    ∃ s1, step op s = some (Ret.unit, s1) ∧
      ((isNewWrite s.flags = true ∨ op.isFlip = true) → isNewWrite s1.flags = true) := by
  obtain ⟨hd, _⟩ := rolesPerm_facts _ h
  obtain ⟨_, _, _, hn⟩ := flip_fields s.flags
  cases op with
  | write v =>
    obtain ⟨b, hb⟩ := s.buffer.modify?_lt (fun _ => v) hd
    refine ⟨{ s with buffer := b }, by rw [step_write, hb]; rfl, ?_⟩
    rintro (h1 | h1)
    · exact h1
    · simp [Op.isFlip] at h1
  | assign g =>
    obtain ⟨b, hb⟩ := s.buffer.modify?_lt g hd
    refine ⟨{ s with buffer := b }, by rw [step_assign, hb]; rfl, ?_⟩
    rintro (h1 | h1)
    · exact h1
    · simp [Op.isFlip] at h1
  | flipWriter => exact ⟨_, step_flipWriter s, fun _ => hn⟩
  | update v =>
    obtain ⟨b, hb⟩ := s.buffer.modify?_lt (fun _ => v) hd
    exact ⟨{ flags := newWriteSwapCleanWithDirty s.flags, buffer := b },
      by rw [step_update, hb]; rfl, fun _ => hn⟩
  | newSnap => simp [Op.isWriter] at hop
  | snap => simp [Op.isWriter] at hop
  | getReadRef => simp [Op.isWriter] at hop
  | readLast => simp [Op.isWriter] at hop

theorem writers_run (ws : List (Op T)) {s : TripleBuffer T} (h : RolesPerm s.flags)
    (hws : ∀ op ∈ ws, op.isWriter = true) :
    ∃ s1, run ws s = some (ws.map (fun _ => Ret.unit), s1) ∧ RolesPerm s1.flags ∧
      ((isNewWrite s.flags = true ∨ ∃ op ∈ ws, op.isFlip = true) →
        isNewWrite s1.flags = true) := by
  induction ws generalizing s with
  | nil =>
    refine ⟨s, rfl, h, ?_⟩
    rintro (h1 | ⟨op, hop, _⟩)
    · exact h1
    · simp at hop
  | cons op ops ih =>
    obtain ⟨s1, hst, hn1⟩ := writer_step h (hws op (List.mem_cons_self _ _))
    obtain ⟨s2, hr, hp2, hn2⟩ := ih (step_rolesPerm h hst)
      (fun o ho => hws o (List.mem_cons_of_mem _ ho))
    refine ⟨s2, by simpa using run_cons hst hr, hp2, ?_⟩
    rintro (h1 | ⟨o, ho, hf⟩)
    · exact hn2 (Or.inl (hn1 (Or.inl h1)))
    · rcases List.mem_cons.1 ho with rfl | ho1
      · exact hn2 (Or.inl (hn1 (Or.inr hf)))
      · exact hn2 (Or.inr ⟨o, ho1, hf⟩)

/-- Stores into the dirty slot and reads leave the register and the snapshot value
alone. -/
theorem quiet_run (ms : List (Op T)) {s : TripleBuffer T} {v : T} (h : RolesPerm s.flags)
    (hv : s.buffer.get? (snapIndex s.flags) = some v)
    (hms : ∀ op ∈ ms, op.isQuiet = true) :
    ∃ s1, run ms s = some (ms.map (stableRet v), s1) ∧ s1.flags = s.flags ∧
      s1.buffer.get? (snapIndex s.flags) = some v := by
  induction ms generalizing s with
  | nil => exact ⟨s, rfl, rfl, hv⟩
  | cons op ops ih =>
    obtain ⟨hd, _, _, _, hds, _⟩ := rolesPerm_facts _ h
    have hop : op.isQuiet = true := hms op (List.mem_cons_self _ _)
    have hst : ∃ s1, step op s = some (stableRet v op, s1) ∧ s1.flags = s.flags ∧
        s1.buffer.get? (snapIndex s.flags) = some v := by
      cases op with
      | write w =>
        obtain ⟨b, hb⟩ := s.buffer.modify?_lt (fun _ => w) hd
        exact ⟨{ s with buffer := b }, by rw [step_write, hb]; rfl, rfl,
          by rw [← hv]; exact Buffer3.get?_modify?_ne hb (Ne.symm hds)⟩
      | assign g =>
        obtain ⟨b, hb⟩ := s.buffer.modify?_lt g hd
        exact ⟨{ s with buffer := b }, by rw [step_assign, hb]; rfl, rfl,
          by rw [← hv]; exact Buffer3.get?_modify?_ne hb (Ne.symm hds)⟩
      | snap => exact ⟨s, by rw [step_snap, hv]; rfl, rfl, hv⟩
      | getReadRef => exact ⟨s, by rw [step_getReadRef, hv]; rfl, rfl, hv⟩
      | flipWriter => simp [Op.isQuiet] at hop
      | update _ => simp [Op.isQuiet] at hop
      | newSnap => simp [Op.isQuiet] at hop
      | readLast => simp [Op.isQuiet] at hop
    obtain ⟨s1, hs1, hf1, hv1⟩ := hst
    have hp1 : RolesPerm s1.flags := by rw [hf1]; exact h
    have hv1a : s1.buffer.get? (snapIndex s1.flags) = some v := by rw [hf1]; exact hv1
    obtain ⟨s2, hr, hf2, hv2⟩ := ih hp1 hv1a
      (fun o ho => hms o (List.mem_cons_of_mem _ ho))
    refine ⟨s2, by simpa using run_cons hs1 hr, by rw [hf2, hf1], ?_⟩
    rw [← hf1]; exact hv2

/-- C7: from every reachable state, after writer-side calls that include at least one
flipWriter (alone or inside update) the next newSnap returns true; a second newSnap
with no flipWriter in between (only stores into the dirty slot and reads) returns
false, and snap()/getReadRef() return after it, and in between, the value they
returned after the first newSnap. -/
theorem acquire_once (s : TripleBuffer T) (hs : Reachable s) (ws : List (Op T))
    (hws : ∀ op ∈ ws, op.isWriter = true) (hflip : ∃ op ∈ ws, op.isFlip = true)
    (ms : List (Op T)) (hms : ∀ op ∈ ms, op.isQuiet = true)
    (rs : List (Op T)) (hrs : ∀ op ∈ rs, op.isReader = true) :
    ∃ v s2 s3,
      run (ws ++ [.newSnap]) s = some (ws.map (fun _ => Ret.unit) ++ [Ret.bool true], s2) ∧
      snap s2 = some v ∧ deref s2 (getReadRef s2) = some v ∧
      run (ws ++ .newSnap :: (ms ++ .newSnap :: rs)) s =
        some (ws.map (fun _ => Ret.unit) ++
          Ret.bool true :: (ms.map (stableRet v) ++ Ret.bool false :: rs.map (stableRet v)),
          s3) ∧
      snap s3 = some v ∧ deref s3 (getReadRef s3) = some v := by
  obtain ⟨s1, hr1, hp1, hn1⟩ := writers_run ws (reachable_rolesPerm hs) hws
  have hnew : isNewWrite s1.flags = true := hn1 (Or.inr hflip)
  have hst : step .newSnap s1 =
      some (Ret.bool true, { s1 with flags := swapSnapWithClean s1.flags }) := by
    rw [step_newSnap, hnew]; rfl
  have hp2 : RolesPerm (swapSnapWithClean s1.flags) := rolesPerm_swap _ hp1
  obtain ⟨_, _, hsn, _⟩ := rolesPerm_facts _ hp2
  obtain ⟨_, _, _, hnw⟩ := swap_fields s1.flags
  obtain ⟨v, hv⟩ := s1.buffer.get?_lt hsn
  have hv2 : ({ s1 with flags := swapSnapWithClean s1.flags } : TripleBuffer T).buffer.get?
      (snapIndex ({ s1 with flags := swapSnapWithClean s1.flags } : TripleBuffer T).flags) =
      some v := hv
  obtain ⟨s3, hr3, hf3, hv3⟩ :=
    @quiet_run T ms { s1 with flags := swapSnapWithClean s1.flags } v hp2 hv2 hms
  have hnw3 : isNewWrite s3.flags = false := by rw [hf3]; exact hnw
  have hv3a : s3.buffer.get? (snapIndex s3.flags) = some v := by rw [hf3]; exact hv3
  have hst3 : step .newSnap s3 = some (Ret.bool false, s3) := by
    rw [step_newSnap, hnw3]; rfl
  have hr4 := run_readers hnw3 hv3a rs hrs
  refine ⟨v, _, s3, run_append hr1 (run_cons hst rfl), hv, hv, ?_, hv3a, hv3a⟩
  exact run_append hr1 (run_cons hst (run_append hr3 (run_cons hst3 hr4)))

theorem acquire_once_witness :
    ∃ s3, run [Op.update 7, .update 8, .newSnap, .getReadRef, .newSnap, .getReadRef]
        (init (0 : Nat)) =
      some ([.unit, .unit, .bool true, .val 8, .bool false, .val 8], s3) := by
  obtain ⟨v, s2, s3, h1, h2, _, h4, _⟩ :=
    acquire_once (init (0 : Nat)) (Reachable.ctor 0) [Op.update 7, .update 8]
      (by simp [Op.isWriter]) ⟨Op.update 8, by simp, rfl⟩
      [Op.getReadRef] (by simp [Op.isQuiet]) [Op.getReadRef] (by simp [Op.isReader])
  have hrun : run ([Op.update 7, .update 8] ++ [.newSnap]) (init (0 : Nat)) =
      some ([.unit, .unit, .bool true], ⟨0x9, ⟨7, 8, 0⟩⟩) := by
    simp only [List.cons_append, List.nil_append, run, step_update, step_newSnap]; decide
  rw [hrun] at h1
  simp only [Option.some.injEq, Prod.mk.injEq] at h1
  have hv : v = 8 := by
    rw [← h1.2] at h2
    have h8 : snap (⟨0x9, ⟨7, 8, 0⟩⟩ : TripleBuffer Nat) = some 8 := by decide
    rw [h8] at h2
    exact (Option.some.inj h2).symm
  subst hv
  exact ⟨s3, h4⟩

/-! ## C8: `readLast` returns the most recently published value -/

theorem run_length {ops : List (Op T)} {s s1 : TripleBuffer T} {rs : List (Ret T)}
    (hrun : run ops s = some (rs, s1)) : rs.length = ops.length := by
  induction ops generalizing s rs with
  | nil =>
    simp only [run, Option.some.injEq, Prod.mk.injEq] at hrun
    obtain ⟨rfl, _⟩ := hrun
    rfl
  | cons op ops ih =>
    simp only [run] at hrun
    cases hst : step op s with
    | none => simp [hst] at hrun
    | some p =>
      obtain ⟨r, s3⟩ := p
      simp only [hst] at hrun
      cases hr : run ops s3 with
      | none => simp [hr] at hrun
      | some q =>
        obtain ⟨rs1, s4⟩ := q
        simp only [hr, Option.some.injEq, Prod.mk.injEq] at hrun
        obtain ⟨rfl, rfl⟩ := hrun
        simp [ih hr]

/-- The call at position `i` of a trace is issued in the state the first `i` calls
lead to, and its result is the `i`-th result. -/
theorem run_at {ops : List (Op T)} {s s1 : TripleBuffer T} {rs : List (Ret T)}
    (hrun : run ops s = some (rs, s1)) {i : Nat} {op : Op T} (hi : ops[i]? = some op) :
    ∃ rp sp r sn, run (ops.take i) s = some (rp, sp) ∧ step op sp = some (r, sn) ∧
      rs[i]? = some r := by
  induction ops generalizing s rs i with
  | nil => simp at hi
  | cons o ops ih =>
    simp only [run] at hrun
    cases hst : step o s with
    | none => simp [hst] at hrun
    | some p =>
      obtain ⟨r, s3⟩ := p
      simp only [hst] at hrun
      cases hr : run ops s3 with
      | none => simp [hr] at hrun
      | some q =>
        obtain ⟨rs1, s4⟩ := q
        simp only [hr, Option.some.injEq, Prod.mk.injEq] at hrun
        obtain ⟨rfl, rfl⟩ := hrun
        cases i with
        | zero =>
          simp only [List.getElem?_cons_zero, Option.some.injEq] at hi
          subst hi
          exact ⟨[], s, r, s3, rfl, hst, by simp⟩
        | succ j =>
          simp only [List.getElem?_cons_succ] at hi
          obtain ⟨rp, sp, r1, sn, h1, h2, h3⟩ := ih hr hi
          exact ⟨r :: rp, sp, r1, sn, by simpa using run_cons hst h1, h2, by simpa using h3⟩

/-- The slot a reader would get next: the clean slot when a publication is pending,
the snap slot otherwise. -/
theorem pub_step {op : Op T} {s s1 : TripleBuffer T} {r : Ret T} {p : T}
    (h : RolesPerm s.flags)
    (hp : s.buffer.get?
      (if isNewWrite s.flags then cleanIndex s.flags else snapIndex s.flags) = some p)
    (hstep : step op s = some (r, s1)) :
    s1.buffer.get?
      (if isNewWrite s1.flags then cleanIndex s1.flags else snapIndex s1.flags) =
      some (publishedAt op s p) := by
  obtain ⟨hd, _, _, hdc, hds, _⟩ := rolesPerm_facts _ h
  obtain ⟨_, hfc, _, hfn⟩ := flip_fields s.flags
  obtain ⟨_, _, hss, hsn⟩ := swap_fields s.flags
  have hne : (if isNewWrite s.flags then cleanIndex s.flags else snapIndex s.flags) ≠
      dirtyIndex s.flags := by
    cases isNewWrite s.flags
    · simpa using Ne.symm hds
    · simpa using Ne.symm hdc
  cases op with
  | write w =>
    rw [step_write] at hstep
    obtain ⟨b, hb, he⟩ := Option.map_eq_some'.1 hstep
    cases he
    show b.get? _ = some p
    rw [← hp]; exact Buffer3.get?_modify?_ne hb hne
  | assign g =>
    rw [step_assign] at hstep
    obtain ⟨b, hb, he⟩ := Option.map_eq_some'.1 hstep
    cases he
    show b.get? _ = some p
    rw [← hp]; exact Buffer3.get?_modify?_ne hb hne
  | flipWriter =>
    rw [step_flipWriter] at hstep
    cases hstep
    obtain ⟨w, hw⟩ := s.buffer.get?_lt hd
    show s.buffer.get? (if isNewWrite (newWriteSwapCleanWithDirty s.flags) then
      cleanIndex (newWriteSwapCleanWithDirty s.flags)
      else snapIndex (newWriteSwapCleanWithDirty s.flags)) = some (publishedAt .flipWriter s p)
    rw [hfn, if_pos rfl, hfc, hw]
    simp [publishedAt, hw]
  | update w =>
    rw [step_update] at hstep
    obtain ⟨b, hb, he⟩ := Option.map_eq_some'.1 hstep
    cases he
    obtain ⟨x, hx⟩ := s.buffer.get?_lt hd
    have hbw : b.get? (dirtyIndex s.flags) = some w := by
      rw [Buffer3.get?_modify?_same hb, hx]; rfl
    have hb2 : s.buffer.modify? (fun _ => w) ((s.flags &&& 0x30) >>> 4) = some b := hb
    have hpub : publishedAt (.update w) s p = w := by
      simp only [publishedAt, write, hb2, Option.map_some', Option.some_bind, hbw,
        Option.getD_some]
    show b.get? (if isNewWrite (newWriteSwapCleanWithDirty s.flags) then
      cleanIndex (newWriteSwapCleanWithDirty s.flags)
      else snapIndex (newWriteSwapCleanWithDirty s.flags)) = _
    rw [hfn, if_pos rfl, hfc, hbw, hpub]
  | newSnap =>
    rw [step_newSnap] at hstep
    cases hn : isNewWrite s.flags
    · rw [hn] at hstep; cases hstep
      rw [hn] at hp ⊢; exact hp
    · rw [hn, if_pos rfl] at hstep; cases hstep
      rw [hn, if_pos rfl] at hp
      show s.buffer.get? (if isNewWrite (swapSnapWithClean s.flags) then
        cleanIndex (swapSnapWithClean s.flags)
        else snapIndex (swapSnapWithClean s.flags)) = _
      rw [hsn, if_neg (by simp), hss]; exact hp
  | snap =>
    rw [step_snap] at hstep
    obtain ⟨b, _, he⟩ := Option.map_eq_some'.1 hstep
    cases he; exact hp
  | getReadRef =>
    rw [step_getReadRef] at hstep
    obtain ⟨b, _, he⟩ := Option.map_eq_some'.1 hstep
    cases he; exact hp
  | readLast =>
    rw [step_readLast] at hstep
    cases hn : isNewWrite s.flags
    · rw [hn, if_neg (by simp)] at hstep
      obtain ⟨b, _, he⟩ := Option.map_eq_some'.1 hstep
      cases he; exact hp
    · rw [hn, if_pos rfl] at hstep
      obtain ⟨b, _, he⟩ := Option.map_eq_some'.1 hstep
      cases he
      rw [hn, if_pos rfl] at hp
      show s.buffer.get? (if isNewWrite (swapSnapWithClean s.flags) then
        cleanIndex (swapSnapWithClean s.flags)
        else snapIndex (swapSnapWithClean s.flags)) = _
      rw [hsn, if_neg (by simp), hss]; exact hp

theorem pub_run {ops : List (Op T)} {s s1 : TripleBuffer T} {rs : List (Ret T)} {p : T}
    (h : RolesPerm s.flags)
    (hp : s.buffer.get?
      (if isNewWrite s.flags then cleanIndex s.flags else snapIndex s.flags) = some p)
    (hrun : run ops s = some (rs, s1)) :
    s1.buffer.get?
      (if isNewWrite s1.flags then cleanIndex s1.flags else snapIndex s1.flags) =
      some (published ops s p) := by
  induction ops generalizing s rs p with
  | nil =>
    simp only [run, Option.some.injEq, Prod.mk.injEq] at hrun
    obtain ⟨_, rfl⟩ := hrun
    exact hp
  | cons op ops ih =>
    simp only [run] at hrun
    cases hst : step op s with
    | none => simp [hst] at hrun
    | some q =>
      obtain ⟨r, s3⟩ := q
      simp only [hst] at hrun
      cases hr : run ops s3 with
      | none => simp [hr] at hrun
      | some q2 =>
        obtain ⟨rs1, s4⟩ := q2
        simp only [hr, Option.some.injEq, Prod.mk.injEq] at hrun
        obtain ⟨_, rfl⟩ := hrun
        have := ih (step_rolesPerm h hst) (pub_step h hp hst) hr
        simpa [published, hst] using this

/-- A `readLast` issued where the next slot for the reader holds `p` returns `p`. -/
theorem readLast_ret {s s1 : TripleBuffer T} {r : Ret T} {p : T}
    (hp : s.buffer.get?
      (if isNewWrite s.flags then cleanIndex s.flags else snapIndex s.flags) = some p)
    (hstep : step .readLast s = some (r, s1)) : r = Ret.val p := by
  rw [step_readLast] at hstep
  cases hn : isNewWrite s.flags
  · rw [hn] at hp
    simp only [hn, Bool.false_eq_true, if_false] at hstep hp
    rw [hp] at hstep
    cases hstep; rfl
  · rw [hn] at hp
    simp only [hn, if_true] at hstep hp
    rw [hp] at hstep
    cases hstep; rfl

theorem published_noflip (ops : List (Op T)) (s : TripleBuffer T) (p : T)
    (hops : ∀ op ∈ ops, op.isFlip = false) : published ops s p = p := by
  induction ops generalizing s with
  | nil => rfl
  | cons op ops ih =>
    have hat : publishedAt op s p = p := by
      have := hops op (List.mem_cons_self _ _)
      cases op <;> first | rfl | simp [Op.isFlip] at this
    have hrest : ∀ o ∈ ops, o.isFlip = false := fun o ho => hops o (List.mem_cons_of_mem _ ho)
    simp only [published, hat]
    cases step op s with
    | none => rfl
    | some q => exact ih q.2 hrest

theorem published_updates (ops : List (Op T)) {s : TripleBuffer T} (p : T)
    (h : RolesPerm s.flags)
    (hops : ∀ op ∈ ops, op.isWriter = true → ∃ v, op = .update v) :
    published ops s p = lastUpdate ops p := by
  induction ops generalizing s p with
  | nil => rfl
  | cons op ops ih =>
    obtain ⟨hd, _⟩ := rolesPerm_facts _ h
    have hrest : ∀ o ∈ ops, o.isWriter = true → ∃ v, o = .update v :=
      fun o ho => hops o (List.mem_cons_of_mem _ ho)
    obtain ⟨r, s1, hst⟩ := step_total op h
    have hp1 := step_rolesPerm h hst
    have hop := hops op (List.mem_cons_self _ _)
    simp only [published, hst]
    cases op with
    | update w =>
      obtain ⟨b, hb⟩ := s.buffer.modify?_lt (fun _ => w) hd
      obtain ⟨x, hx⟩ := s.buffer.get?_lt hd
      have hbw : b.get? (dirtyIndex s.flags) = some w := by
        rw [Buffer3.get?_modify?_same hb, hx]; rfl
      have hb2 : s.buffer.modify? (fun _ => w) ((s.flags &&& 0x30) >>> 4) = some b := hb
      have hpub : publishedAt (.update w) s p = w := by
        simp only [publishedAt, write, hb2, Option.map_some', Option.some_bind, hbw,
          Option.getD_some]
      rw [hpub]
      exact ih w hp1 hrest
    | write w =>
      obtain ⟨v, hv⟩ := hop rfl
      cases hv
    | assign g =>
      obtain ⟨v, hv⟩ := hop rfl
      cases hv
    | flipWriter =>
      obtain ⟨v, hv⟩ := hop rfl
      cases hv
    | newSnap => exact ih p hp1 hrest
    | snap => exact ih p hp1 hrest
    | getReadRef => exact ih p hp1 hrest
    | readLast => exact ih p hp1 hrest

/-- C8: in every finite trace of public operations run on a buffer constructed with
v0, the trace runs to the end and every readLast returns the most recently published
value: the content the dirty slot held at the most recent preceding flipWriter (the
argument of the most recent update when the writer only uses update), or v0 when no
flipWriter has occurred yet. -/
theorem readLast_returns_published (v0 : T) (ops : List (Op T)) :
    ∃ rs s1, run ops (init v0) = some (rs, s1) ∧ rs.length = ops.length ∧
      (∀ i, ops[i]? = some Op.readLast →
        rs[i]? = some (Ret.val (published (ops.take i) (init v0) v0))) ∧
      (∀ pre : List (Op T), (∀ op ∈ pre, op.isWriter = true → ∃ v, op = .update v) →
        published pre (init v0) v0 = lastUpdate pre v0) ∧
      (∀ pre : List (Op T), (∀ op ∈ pre, op.isFlip = false) →
        published pre (init v0) v0 = v0) := by
  have h0 : RolesPerm (init v0).flags := rolesPerm_init v0
  have hp0 : (init v0).buffer.get?
      (if isNewWrite (init v0).flags then cleanIndex (init v0).flags
        else snapIndex (init v0).flags) = some v0 := by
    have hn : isNewWrite (init v0).flags = false := by show isNewWrite 6 = false; decide
    have h3 : snapIndex (init v0).flags = 2 := by show snapIndex 6 = 2; decide
    rw [hn, if_neg (by simp), h3]; rfl
  obtain ⟨rs, s1, hrun⟩ := run_total ops h0
  refine ⟨rs, s1, hrun, run_length hrun, ?_, ?_, ?_⟩
  · intro i hi
    obtain ⟨rp, sp, r, sn, h1, h2, h3⟩ := run_at hrun hi
    rw [h3, readLast_ret (pub_run h0 hp0 h1) h2]
  · intro pre hpre
    exact published_updates pre v0 h0 hpre
  · intro pre hpre
    exact published_noflip pre (init v0) v0 hpre

/-! ## C9: the pending bit -/

/-- The pending bit after one call, by the kind of call. -/
theorem pending_step {op : Op T} {s s1 : TripleBuffer T} {r : Ret T}
    (hstep : step op s = some (r, s1)) :
    isNewWrite s1.flags = flipPendingAt op s (isNewWrite s.flags) ∧
    isNewWrite s1.flags = flipAfter op (isNewWrite s.flags) := by
  obtain ⟨_, _, _, hfn⟩ := flip_fields s.flags
  obtain ⟨_, _, _, hsn⟩ := swap_fields s.flags
  cases op with
  | write w =>
    rw [step_write] at hstep
    obtain ⟨b, _, he⟩ := Option.map_eq_some'.1 hstep
    cases he; exact ⟨rfl, rfl⟩
  | assign g =>
    rw [step_assign] at hstep
    obtain ⟨b, _, he⟩ := Option.map_eq_some'.1 hstep
    cases he; exact ⟨rfl, rfl⟩
  | flipWriter =>
    rw [step_flipWriter] at hstep
    cases hstep; exact ⟨hfn, hfn⟩
  | update w =>
    rw [step_update] at hstep
    obtain ⟨b, _, he⟩ := Option.map_eq_some'.1 hstep
    cases he; exact ⟨hfn, hfn⟩
  | newSnap =>
    rw [step_newSnap] at hstep
    cases hn : isNewWrite s.flags
    · rw [hn] at hstep; cases hstep
      simp [flipPendingAt, flipAfter, newSnap_fst, hn]
    · rw [hn, if_pos rfl] at hstep; cases hstep
      simp [flipPendingAt, flipAfter, newSnap_fst, hn, hsn]
  | snap =>
    rw [step_snap] at hstep
    obtain ⟨b, _, he⟩ := Option.map_eq_some'.1 hstep
    cases he; exact ⟨rfl, rfl⟩
  | getReadRef =>
    rw [step_getReadRef] at hstep
    obtain ⟨b, _, he⟩ := Option.map_eq_some'.1 hstep
    cases he; exact ⟨rfl, rfl⟩
  | readLast =>
    rw [step_readLast] at hstep
    cases hn : isNewWrite s.flags
    · rw [hn, if_neg (by simp)] at hstep
      obtain ⟨b, _, he⟩ := Option.map_eq_some'.1 hstep
      cases he
      simp [flipPendingAt, flipAfter, newSnap_fst, hn]
    · rw [hn, if_pos rfl] at hstep
      obtain ⟨b, _, he⟩ := Option.map_eq_some'.1 hstep
      cases he
      simp [flipPendingAt, flipAfter, newSnap_fst, hn, hsn]

theorem pending_run {ops : List (Op T)} {s s1 : TripleBuffer T} {rs : List (Ret T)}
    (hrun : run ops s = some (rs, s1)) :
    isNewWrite s1.flags = flipPending ops s (isNewWrite s.flags) ∧
    isNewWrite s1.flags = lastIsFlip ops (isNewWrite s.flags) := by
  induction ops generalizing s rs with
  | nil =>
    simp only [run, Option.some.injEq, Prod.mk.injEq] at hrun
    obtain ⟨_, rfl⟩ := hrun
    exact ⟨rfl, rfl⟩
  | cons op ops ih =>
    simp only [run] at hrun
    cases hst : step op s with
    | none => simp [hst] at hrun
    | some q =>
      obtain ⟨r, s3⟩ := q
      simp only [hst] at hrun
      cases hr : run ops s3 with
      | none => simp [hr] at hrun
      | some q2 =>
        obtain ⟨rs1, s4⟩ := q2
        simp only [hr, Option.some.injEq, Prod.mk.injEq] at hrun
        obtain ⟨_, rfl⟩ := hrun
        obtain ⟨h1, h2⟩ := pending_step hst
        obtain ⟨h3, h4⟩ := ih hr
        refine ⟨?_, ?_⟩
        · rw [h3, h1]; simp [flipPending, hst]
        · rw [h4, h2]; rfl

/-- C9: any finite trace of public operations on a freshly constructed buffer runs to
the end, and in the resulting state the hasNewData bit (flags & 0x40) is set if and
only if a flipWriter has occurred after the last newSnap that returned true;
equivalently, if and only if the last role-changing call is a publication. The bit
is clear right after construction, no writer-side call clears it and no reader-side
call sets it. -/
theorem pending_iff_flip_since_acquire (v0 : T) (ops : List (Op T)) :
    ∃ rs s1, run ops (init v0) = some (rs, s1) ∧
      (s1.flags &&& 0x40 ≠ 0 ↔ flipPending ops (init v0) false = true) ∧
      (s1.flags &&& 0x40 ≠ 0 ↔ lastIsFlip ops false = true) ∧
      (init v0).flags &&& 0x40 = 0 ∧
      (∀ (s s2 : TripleBuffer T) (op : Op T) (r : Ret T), op.isWriter = true →
        step op s = some (r, s2) → s.flags &&& 0x40 ≠ 0 → s2.flags &&& 0x40 ≠ 0) ∧
      (∀ (s s2 : TripleBuffer T) (op : Op T) (r : Ret T), op.isReader = true →
        step op s = some (r, s2) → s.flags &&& 0x40 = 0 → s2.flags &&& 0x40 = 0) := by
  have hn : isNewWrite (init v0).flags = false := by show isNewWrite 6 = false; decide
  obtain ⟨rs, s1, hrun⟩ := run_total ops (rolesPerm_init v0)
  obtain ⟨h1, h2⟩ := pending_run hrun
  rw [hn] at h1 h2
  refine ⟨rs, s1, hrun, ?_, ?_, (isNewWrite_false_iff _).1 hn, ?_, ?_⟩
  · rw [← isNewWrite_iff, h1]
  · rw [← isNewWrite_iff, h2]
  · intro s s2 op r hop hstep hs
    have hs1 : isNewWrite s.flags = true := (isNewWrite_iff _).2 hs
    rw [← isNewWrite_iff, (pending_step hstep).2, hs1]
    cases op <;> first | rfl | simp [Op.isWriter] at hop
  · intro s s2 op r hop hstep hs
    have hs1 : isNewWrite s.flags = false := (isNewWrite_false_iff _).2 hs
    rw [← isNewWrite_false_iff, (pending_step hstep).2, hs1]
    cases op <;> first | rfl | simp [Op.isReader] at hop

/-! ## C11, C12: the writer and the reader do not disturb each other -/

/-- A reader-side call keeps the register's dirty field and the three slots. -/
theorem reader_step_frame {op : Op T} {s s1 : TripleBuffer T} {r : Ret T}
    (hop : op.isReader = true) (hstep : step op s = some (r, s1)) :
    dirtyIndex s1.flags = dirtyIndex s.flags ∧ s1.buffer = s.buffer := by
  obtain ⟨hsd, _⟩ := swap_fields s.flags
  cases op with
  | newSnap =>
    rw [step_newSnap] at hstep
    cases hn : isNewWrite s.flags
    · rw [hn] at hstep; cases hstep; exact ⟨rfl, rfl⟩
    · rw [hn, if_pos rfl] at hstep; cases hstep; exact ⟨hsd, rfl⟩
  | snap =>
    rw [step_snap] at hstep
    obtain ⟨b, _, he⟩ := Option.map_eq_some'.1 hstep
    cases he; exact ⟨rfl, rfl⟩
  | getReadRef =>
    rw [step_getReadRef] at hstep
    obtain ⟨b, _, he⟩ := Option.map_eq_some'.1 hstep
    cases he; exact ⟨rfl, rfl⟩
  | readLast =>
    rw [step_readLast] at hstep
    cases hn : isNewWrite s.flags
    · rw [hn, if_neg (by simp)] at hstep
      obtain ⟨b, _, he⟩ := Option.map_eq_some'.1 hstep
      cases he; exact ⟨rfl, rfl⟩
    · rw [hn, if_pos rfl] at hstep
      obtain ⟨b, _, he⟩ := Option.map_eq_some'.1 hstep
      cases he; exact ⟨hsd, rfl⟩
  | write _ => simp [Op.isReader] at hop
  | assign _ => simp [Op.isReader] at hop
  | flipWriter => simp [Op.isReader] at hop
  | update _ => simp [Op.isReader] at hop

theorem readers_run_frame {rs : List (Op T)} {s s1 : TripleBuffer T} {res : List (Ret T)}
    (hrs : ∀ op ∈ rs, op.isReader = true) (hrun : run rs s = some (res, s1)) :
    dirtyIndex s1.flags = dirtyIndex s.flags ∧ s1.buffer = s.buffer := by
  induction rs generalizing s res with
  | nil =>
    simp only [run, Option.some.injEq, Prod.mk.injEq] at hrun
    obtain ⟨_, rfl⟩ := hrun
    exact ⟨rfl, rfl⟩
  | cons op ops ih =>
    simp only [run] at hrun
    cases hst : step op s with
    | none => simp [hst] at hrun
    | some q =>
      obtain ⟨r, s3⟩ := q
      simp only [hst] at hrun
      cases hr : run ops s3 with
      | none => simp [hr] at hrun
      | some q2 =>
        obtain ⟨rs1, s4⟩ := q2
        simp only [hr, Option.some.injEq, Prod.mk.injEq] at hrun
        obtain ⟨_, rfl⟩ := hrun
        obtain ⟨h1, h2⟩ := reader_step_frame (hrs op (List.mem_cons_self _ _)) hst
        obtain ⟨h3, h4⟩ := ih (fun o ho => hrs o (List.mem_cons_of_mem _ ho)) hr
        exact ⟨h3.trans h1, h4.trans h2⟩

/-- A reader-side call gives the same result in two states that have the same
register and differ at most in the dirty slot. -/
theorem reader_step_agree {op : Op T} {s t s1 : TripleBuffer T} {r : Ret T}
    (h : RolesPerm s.flags) (hf : t.flags = s.flags)
    (hb : ∀ j, j ≠ dirtyIndex s.flags → t.buffer.get? j = s.buffer.get? j)
    (hop : op.isReader = true) (hstep : step op s = some (r, s1)) :
    ∃ t1, step op t = some (r, t1) ∧ t1.flags = s1.flags ∧
      ∀ j, j ≠ dirtyIndex s1.flags → t1.buffer.get? j = s1.buffer.get? j := by
  obtain ⟨_, _, _, hdc, hds, _⟩ := rolesPerm_facts _ h
  obtain ⟨hsd, _⟩ := swap_fields s.flags
  have hsnap := hb _ (Ne.symm hds)
  have hclean := hb _ (Ne.symm hdc)
  cases op with
  | newSnap =>
    rw [step_newSnap] at hstep
    cases hn : isNewWrite s.flags
    · rw [hn] at hstep; cases hstep
      exact ⟨t, by rw [step_newSnap, hf, hn]; rfl, hf, hb⟩
    · rw [hn, if_pos rfl] at hstep; cases hstep
      refine ⟨{ t with flags := swapSnapWithClean t.flags },
        by rw [step_newSnap, hf, hn]; rfl, by rw [hf], ?_⟩
      intro j hj
      exact hb j (by rw [← hsd]; exact hj)
  | snap =>
    rw [step_snap] at hstep
    obtain ⟨b, hb1, he⟩ := Option.map_eq_some'.1 hstep
    cases he
    exact ⟨t, by rw [step_snap, hf, hsnap, hb1]; rfl, hf, hb⟩
  | getReadRef =>
    rw [step_getReadRef] at hstep
    obtain ⟨b, hb1, he⟩ := Option.map_eq_some'.1 hstep
    cases he
    exact ⟨t, by rw [step_getReadRef, hf, hsnap, hb1]; rfl, hf, hb⟩
  | readLast =>
    rw [step_readLast] at hstep
    cases hn : isNewWrite s.flags
    · rw [hn, if_neg (by simp)] at hstep
      obtain ⟨b, hb1, he⟩ := Option.map_eq_some'.1 hstep
      cases he
      exact ⟨t, by rw [step_readLast, hf, hn, if_neg (by simp), hsnap, hb1]; rfl, hf, hb⟩
    · rw [hn, if_pos rfl] at hstep
      obtain ⟨b, hb1, he⟩ := Option.map_eq_some'.1 hstep
      cases he
      refine ⟨{ t with flags := swapSnapWithClean t.flags },
        by rw [step_readLast, hf, hn, if_pos rfl, hclean, hb1]; rfl, by rw [hf], ?_⟩
      intro j hj
      exact hb j (by rw [← hsd]; exact hj)
  | write _ => simp [Op.isReader] at hop
  | assign _ => simp [Op.isReader] at hop
  | flipWriter => simp [Op.isReader] at hop
  | update _ => simp [Op.isReader] at hop

theorem readers_run_agree {rs : List (Op T)} {s t s1 : TripleBuffer T} {res : List (Ret T)}
    (h : RolesPerm s.flags) (hf : t.flags = s.flags)
    (hb : ∀ j, j ≠ dirtyIndex s.flags → t.buffer.get? j = s.buffer.get? j)
    (hrs : ∀ op ∈ rs, op.isReader = true) (hrun : run rs s = some (res, s1)) :
    ∃ t1, run rs t = some (res, t1) := by
  induction rs generalizing s t res with
  | nil =>
    simp only [run, Option.some.injEq, Prod.mk.injEq] at hrun
    obtain ⟨rfl, _⟩ := hrun
    exact ⟨t, rfl⟩
  | cons op ops ih =>
    simp only [run] at hrun
    cases hst : step op s with
    | none => simp [hst] at hrun
    | some q =>
      obtain ⟨r, s3⟩ := q
      simp only [hst] at hrun
      cases hr : run ops s3 with
      | none => simp [hr] at hrun
      | some q2 =>
        obtain ⟨rs1, s4⟩ := q2
        simp only [hr, Option.some.injEq, Prod.mk.injEq] at hrun
        obtain ⟨rfl, rfl⟩ := hrun
        obtain ⟨t1, ht1, hf1, hb1⟩ :=
          reader_step_agree h hf hb (hrs op (List.mem_cons_self _ _)) hst
        obtain ⟨t2, ht2⟩ := ih (step_rolesPerm h hst) hf1 hb1
          (fun o ho => hrs o (List.mem_cons_of_mem _ ho)) hr
        exact ⟨t2, run_cons ht1 ht2⟩

/-- C11: in every reachable state write(v) succeeds, sets the slot at dirtyIndex to v and
leaves the flags register and the other two slots unchanged; hence every finite
sequence of reader-side calls returns the same results from the state after the
write as from the state before it. -/
theorem unpublished_write_invisible (s : TripleBuffer T) (hs : Reachable s) (v : T) :
    ∃ s1, write s v = some s1 ∧
      s1.flags = s.flags ∧
      s1.buffer.get? (dirtyIndex s.flags) = some v ∧
      (∀ j, j ≠ dirtyIndex s.flags → s1.buffer.get? j = s.buffer.get? j) ∧
      ∀ rs : List (Op T), (∀ op ∈ rs, op.isReader = true) →
        ∃ res s2 s3, run rs s = some (res, s2) ∧ run rs s1 = some (res, s3) := by
  have h := reachable_rolesPerm hs
  obtain ⟨hd, _⟩ := rolesPerm_facts _ h
  obtain ⟨b, hb, hsame, hother⟩ := store_dirty s (fun _ => v) hd
  obtain ⟨w, hw⟩ := s.buffer.get?_lt hd
  have hb2 : s.buffer.modify? (fun _ => v) ((s.flags &&& 0x30) >>> 4) = some b := hb
  refine ⟨{ s with buffer := b }, by simp [write, hb2], rfl, by rw [hsame, hw]; rfl, hother, ?_⟩
  intro rs hrs
  obtain ⟨res, s2, hrun⟩ := run_total rs h
  obtain ⟨s3, hrun3⟩ := @readers_run_agree T rs s { s with buffer := b } s2 res h rfl hother
    hrs hrun
  exact ⟨res, s2, s3, hrun, hrun3⟩

theorem unpublished_write_invisible_witness :
    Reachable (⟨0x18, ⟨6, 5, 0⟩⟩ : TripleBuffer Nat) ∧
    ∃ s1, write (⟨0x18, ⟨6, 5, 0⟩⟩ : TripleBuffer Nat) 9 = some s1 ∧
      s1.flags = 0x18 ∧
      s1.buffer.get? (dirtyIndex 0x18) = some 9 ∧
      (∀ j, j ≠ dirtyIndex 0x18 →
        s1.buffer.get? j = (⟨6, 5, 0⟩ : Buffer3 Nat).get? j) ∧
      ∀ rs : List (Op Nat), (∀ op ∈ rs, op.isReader = true) →
        ∃ res s2 s3, run rs (⟨0x18, ⟨6, 5, 0⟩⟩ : TripleBuffer Nat) = some (res, s2) ∧
          run rs s1 = some (res, s3) :=
  ⟨reachable_456, unpublished_write_invisible ⟨0x18, ⟨6, 5, 0⟩⟩ reachable_456 9⟩

/-- C12: from every reachable state any sequence of reader-side calls (newSnap, snap,
getReadRef, readLast) runs to the end and leaves dirtyIndex and the contents of the
three slots unchanged, so getWriteRef() designates the same slot with the same
content before and after; a call other than flipWriter (alone or inside update) never
changes the designation, and flipWriter does. -/
theorem readers_keep_writer_slot (s : TripleBuffer T) (hs : Reachable s) (rs : List (Op T))
    (hrs : ∀ op ∈ rs, op.isReader = true) :
    ∃ res s1, run rs s = some (res, s1) ∧
      dirtyIndex s1.flags = dirtyIndex s.flags ∧
      s1.buffer = s.buffer ∧
      getWriteRef s1 = getWriteRef s ∧
      deref s1 (getWriteRef s1) = deref s (getWriteRef s) ∧
      (∀ (op : Op T) (r : Ret T) (s2 : TripleBuffer T), op.isFlip = false →
        step op s = some (r, s2) → getWriteRef s2 = getWriteRef s) ∧
      getWriteRef (flipWriter s) ≠ getWriteRef s := by
  have h := reachable_rolesPerm hs
  obtain ⟨_, _, _, hdc, _, _⟩ := rolesPerm_facts _ h
  obtain ⟨res, s1, hrun⟩ := run_total rs h
  obtain ⟨h1, h2⟩ := readers_run_frame hrs hrun
  have h3 : getWriteRef s1 = getWriteRef s := h1
  refine ⟨res, s1, hrun, h1, h2, h3, by rw [h3]; simp only [deref, h2], ?_, ?_⟩
  · intro op r s2 hop hstep
    show dirtyIndex s2.flags = dirtyIndex s.flags
    cases op with
    | write w =>
      rw [step_write] at hstep
      obtain ⟨b, _, he⟩ := Option.map_eq_some'.1 hstep
      cases he; rfl
    | assign g =>
      rw [step_assign] at hstep
      obtain ⟨b, _, he⟩ := Option.map_eq_some'.1 hstep
      cases he; rfl
    | flipWriter => simp [Op.isFlip] at hop
    | update _ => simp [Op.isFlip] at hop
    | newSnap => exact (@reader_step_frame T .newSnap s s2 r rfl hstep).1
    | snap => exact (@reader_step_frame T .snap s s2 r rfl hstep).1
    | getReadRef => exact (@reader_step_frame T .getReadRef s s2 r rfl hstep).1
    | readLast => exact (@reader_step_frame T .readLast s s2 r rfl hstep).1
  · show dirtyIndex (flipWriter s).flags ≠ dirtyIndex s.flags
    rw [flipWriter_eq]
    show dirtyIndex (newWriteSwapCleanWithDirty s.flags) ≠ dirtyIndex s.flags
    rw [(flip_fields s.flags).1]
    exact Ne.symm hdc

theorem readers_keep_writer_slot_witness :
    Reachable (⟨0x52, ⟨4, 0, 0⟩⟩ : TripleBuffer Nat) ∧
    ∃ s1, run [Op.snap, .newSnap, .getReadRef, .readLast, .newSnap]
        (⟨0x52, ⟨4, 0, 0⟩⟩ : TripleBuffer Nat) =
        some ([.val 0, .bool true, .val 4, .val 4, .bool false], s1) ∧
      getWriteRef s1 = 1 ∧ s1.buffer = ⟨4, 0, 0⟩ := by
  refine ⟨reachable_4, ?_⟩
  obtain ⟨res, s1, h1, _, h3, h4, _⟩ :=
    readers_keep_writer_slot ⟨0x52, ⟨4, 0, 0⟩⟩ reachable_4
      [Op.snap, .newSnap, .getReadRef, .readLast, .newSnap] (by simp [Op.isReader])
  have hrun : run [Op.snap, .newSnap, .getReadRef, .readLast, .newSnap]
      (⟨0x52, ⟨4, 0, 0⟩⟩ : TripleBuffer Nat) =
      some ([.val 0, .bool true, .val 4, .val 4, .bool false], ⟨0x18, ⟨4, 0, 0⟩⟩) := by
    simp only [run, step_snap, step_newSnap, step_getReadRef, step_readLast]; decide
  rw [hrun] at h1
  simp only [Option.some.injEq, Prod.mk.injEq] at h1
  refine ⟨s1, ?_, ?_, h3⟩
  · rw [hrun, h1.2]
  · rw [h4]; decide

/-! ## C16: slot accesses stay inside the array -/

/-- C16: in every state reachable from either constructor the index (flags & 0x30) >> 4
used by write/getWriteRef and the index flags & 0x3 used by snap/getReadRef are below
3, so every public call finds its slot; the 2-bit fields themselves can hold 3, and
with such a register value the access has no slot. -/
theorem indexing_in_bounds (s : TripleBuffer T) (hs : Reachable s) :
    (s.flags &&& 0x30) >>> 4 < 3 ∧
    s.flags &&& 0x3 < 3 ∧
    getWriteRef s < 3 ∧
    getReadRef s < 3 ∧
    (∀ op : Op T, ∃ r s1, step op s = some (r, s1)) ∧
    dirtyIndex 0x30 = 3 ∧ cleanIndex 0xC = 3 ∧ snapIndex 0x3 = 3 ∧
    (∀ (b : Buffer3 T) (v : T), write ⟨0x30, b⟩ v = none ∧ snap ⟨0x3, b⟩ = none) := by
  have h := reachable_rolesPerm hs
  obtain ⟨hd, _, hsn, _⟩ := rolesPerm_facts _ h
  refine ⟨hd, hsn, hd, hsn, fun op => step_total op h, by decide, by decide, by decide, ?_⟩
  intro b v
  have h1 : ((0x30 : Nat) &&& 0x30) >>> 4 = 3 := by decide
  have h2 : ((0x3 : Nat) &&& 0x3) = 3 := by decide
  constructor
  · simp only [write, h1, Buffer3.modify?, Option.map_none']
  · simp only [snap, h2, Buffer3.get?]

theorem indexing_in_bounds_witness :
    Reachable (⟨0x18, ⟨6, 5, 0⟩⟩ : TripleBuffer Nat) ∧
    ((0x18 : Nat) &&& 0x30) >>> 4 < 3 ∧ (0x18 : Nat) &&& 0x3 < 3 :=
  ⟨reachable_456,
    (indexing_in_bounds ⟨0x18, ⟨6, 5, 0⟩⟩ reachable_456).1,
    (indexing_in_bounds ⟨0x18, ⟨6, 5, 0⟩⟩ reachable_456).2.1⟩

/-! ## C17: the two register functions applied twice -/

set_option maxRecDepth 100000 in
theorem twice_byte : ∀ g, g < 256 →
    swapSnapWithClean (swapSnapWithClean g) = g &&& 0x3F ∧
    newWriteSwapCleanWithDirty (newWriteSwapCleanWithDirty g) = (g &&& 0x3F) ||| 0x40 ∧
    swapSnapWithClean g &&& 0x80 = 0 ∧
    newWriteSwapCleanWithDirty g &&& 0x80 = 0 := by
  decide

/-- Effect of one writer-side call on the roles and on the snap slot. -/
theorem writer_step_roles {op : Op T} {s s1 : TripleBuffer T} {r : Ret T}
    (h : RolesPerm s.flags) (hop : op.isWriter = true)
    (hstep : step op s = some (r, s1)) :
    (op.isFlip = false → dirtyIndex s1.flags = dirtyIndex s.flags ∧
      cleanIndex s1.flags = cleanIndex s.flags) ∧
    (op.isFlip = true → dirtyIndex s1.flags = cleanIndex s.flags ∧
      cleanIndex s1.flags = dirtyIndex s.flags) ∧
    snapIndex s1.flags = snapIndex s.flags ∧
    s1.buffer.get? (snapIndex s.flags) = s.buffer.get? (snapIndex s.flags) := by
  obtain ⟨_, _, _, _, hds, _⟩ := rolesPerm_facts _ h
  obtain ⟨hfd, hfc, hfs, _⟩ := flip_fields s.flags
  cases op with
  | write w =>
    rw [step_write] at hstep
    obtain ⟨b, hb, he⟩ := Option.map_eq_some'.1 hstep
    cases he
    exact ⟨fun _ => ⟨rfl, rfl⟩, fun hf => by simp [Op.isFlip] at hf, rfl,
      Buffer3.get?_modify?_ne hb (Ne.symm hds)⟩
  | assign g =>
    rw [step_assign] at hstep
    obtain ⟨b, hb, he⟩ := Option.map_eq_some'.1 hstep
    cases he
    exact ⟨fun _ => ⟨rfl, rfl⟩, fun hf => by simp [Op.isFlip] at hf, rfl,
      Buffer3.get?_modify?_ne hb (Ne.symm hds)⟩
  | flipWriter =>
    rw [step_flipWriter] at hstep
    cases hstep
    exact ⟨fun hf => by simp [Op.isFlip] at hf, fun _ => ⟨hfd, hfc⟩, hfs, rfl⟩
  | update w =>
    rw [step_update] at hstep
    obtain ⟨b, hb, he⟩ := Option.map_eq_some'.1 hstep
    cases he
    exact ⟨fun hf => by simp [Op.isFlip] at hf, fun _ => ⟨hfd, hfc⟩, hfs,
      Buffer3.get?_modify?_ne hb (Ne.symm hds)⟩
  | newSnap => simp [Op.isWriter] at hop
  | snap => simp [Op.isWriter] at hop
  | getReadRef => simp [Op.isWriter] at hop
  | readLast => simp [Op.isWriter] at hop

/-- A writer that is never read: after an even number of publications the roles are
as at the start, after an odd number dirty and clean are exchanged; the snap role
and the content of the snap slot never change. -/
theorem writers_alternate {ws : List (Op T)} {s s1 : TripleBuffer T} {res : List (Ret T)}
    (h : RolesPerm s.flags) (hws : ∀ op ∈ ws, op.isWriter = true)
    (hrun : run ws s = some (res, s1)) :
    (ws.countP Op.isFlip % 2 = 0 → dirtyIndex s1.flags = dirtyIndex s.flags ∧
      cleanIndex s1.flags = cleanIndex s.flags) ∧
    (ws.countP Op.isFlip % 2 = 1 → dirtyIndex s1.flags = cleanIndex s.flags ∧
      cleanIndex s1.flags = dirtyIndex s.flags) ∧
    snapIndex s1.flags = snapIndex s.flags ∧
    s1.buffer.get? (snapIndex s.flags) = s.buffer.get? (snapIndex s.flags) := by
  induction ws generalizing s res with
  | nil =>
    simp only [run, Option.some.injEq, Prod.mk.injEq] at hrun
    obtain ⟨_, rfl⟩ := hrun
    exact ⟨fun _ => ⟨rfl, rfl⟩, fun hf => by simp at hf, rfl, rfl⟩
  | cons op ops ih =>
    simp only [run] at hrun
    cases hst : step op s with
    | none => simp [hst] at hrun
    | some q =>
      obtain ⟨r, s3⟩ := q
      simp only [hst] at hrun
      cases hr : run ops s3 with
      | none => simp [hr] at hrun
      | some q2 =>
        obtain ⟨rs1, s4⟩ := q2
        simp only [hr, Option.some.injEq, Prod.mk.injEq] at hrun
        obtain ⟨_, rfl⟩ := hrun
        obtain ⟨a1, a2, a3, a4⟩ :=
          writer_step_roles h (hws op (List.mem_cons_self _ _)) hst
        obtain ⟨b1, b2, b3, b4⟩ := ih (step_rolesPerm h hst)
          (fun o ho => hws o (List.mem_cons_of_mem _ ho)) hr
        rw [a3] at b4
        refine ⟨?_, ?_, b3.trans a3, b4.trans a4⟩
        · intro hc
          cases hf : op.isFlip
          · have hc1 : ops.countP Op.isFlip % 2 = 0 := by
              simpa [List.countP_cons, hf] using hc
            obtain ⟨c1, c2⟩ := b1 hc1
            obtain ⟨d1, d2⟩ := a1 hf
            exact ⟨c1.trans d1, c2.trans d2⟩
          · have hc1 : ops.countP Op.isFlip % 2 = 1 := by
              simp only [List.countP_cons, hf, if_true] at hc
              omega
            obtain ⟨c1, c2⟩ := b2 hc1
            obtain ⟨d1, d2⟩ := a2 hf
            exact ⟨c1.trans d2, c2.trans d1⟩
        · intro hc
          cases hf : op.isFlip
          · have hc1 : ops.countP Op.isFlip % 2 = 1 := by
              simpa [List.countP_cons, hf] using hc
            obtain ⟨c1, c2⟩ := b2 hc1
            obtain ⟨d1, d2⟩ := a1 hf
            exact ⟨c1.trans d2, c2.trans d1⟩
          · have hc1 : ops.countP Op.isFlip % 2 = 0 := by
              simp only [List.countP_cons, hf, if_true] at hc
              omega
            obtain ⟨c1, c2⟩ := b1 hc1
            obtain ⟨d1, d2⟩ := a2 hf
            exact ⟨c1.trans d1, c2.trans d2⟩

/-- C17: for every flags value f, swapSnapWithClean applied twice gives f & 0x3F and
newWriteSwapCleanWithDirty applied twice gives (f & 0x3F) | 0x40, and both clear the
unused bit 0x80. Consequently two flipWriter calls in a row restore the role
assignment, and a writer that is never read (any writer-side calls from a reachable
state) alternates between the two slots that were dirty and clean at the start and
never changes the snap role or the snap slot. -/
theorem register_functions_twice (f : Nat) :
    swapSnapWithClean (swapSnapWithClean f) = f &&& 0x3F ∧
    newWriteSwapCleanWithDirty (newWriteSwapCleanWithDirty f) = (f &&& 0x3F) ||| 0x40 ∧
    swapSnapWithClean f &&& 0x80 = 0 ∧
    newWriteSwapCleanWithDirty f &&& 0x80 = 0 ∧
    (∀ s : TripleBuffer T,
      dirtyIndex (flipWriter (flipWriter s)).flags = dirtyIndex s.flags ∧
      cleanIndex (flipWriter (flipWriter s)).flags = cleanIndex s.flags ∧
      snapIndex (flipWriter (flipWriter s)).flags = snapIndex s.flags ∧
      (flipWriter (flipWriter s)).buffer = s.buffer) ∧
    (∀ s : TripleBuffer T, Reachable s → ∀ ws : List (Op T),
      (∀ op ∈ ws, op.isWriter = true) →
      ∃ res s1, run ws s = some (res, s1) ∧
        (ws.countP Op.isFlip % 2 = 0 → dirtyIndex s1.flags = dirtyIndex s.flags ∧
          cleanIndex s1.flags = cleanIndex s.flags) ∧
        (ws.countP Op.isFlip % 2 = 1 → dirtyIndex s1.flags = cleanIndex s.flags ∧
          cleanIndex s1.flags = dirtyIndex s.flags) ∧
        snapIndex s1.flags = snapIndex s.flags ∧
        s1.buffer.get? (snapIndex s.flags) = s.buffer.get? (snapIndex s.flags)) := by
  have hb := twice_byte (f % 256) (Nat.mod_lt _ (by decide))
  refine ⟨?_, ?_, ?_, ?_, ?_, ?_⟩
  · rw [swapSnapWithClean_byte f, land_byte f 0x3F (by decide)]; exact hb.1
  · rw [newWriteSwapCleanWithDirty_byte f, land_byte f 0x3F (by decide)]; exact hb.2.1
  · rw [swapSnapWithClean_byte f]; exact hb.2.2.1
  · rw [newWriteSwapCleanWithDirty_byte f]; exact hb.2.2.2
  · intro s
    obtain ⟨a1, a2, a3, _⟩ := flip_fields s.flags
    obtain ⟨b1, b2, b3, _⟩ := flip_fields (newWriteSwapCleanWithDirty s.flags)
    simp only [flipWriter_eq]
    exact ⟨b1.trans a2, b2.trans a1, b3.trans a3, trivial⟩
  · intro s hs ws hws
    have h := reachable_rolesPerm hs
    obtain ⟨res, s1, hrun⟩ := run_total ws h
    exact ⟨res, s1, hrun, writers_alternate h hws hrun⟩

/-! ## C20: `flipWriter` without a preceding write -/

theorem published_append {a : List (Op T)} (b : List (Op T)) {s s1 : TripleBuffer T}
    {ra : List (Ret T)} (p : T) (hrun : run a s = some (ra, s1)) :
    published (a ++ b) s p = published b s1 (published a s p) := by
  induction a generalizing s ra p with
  | nil =>
    simp only [run, Option.some.injEq, Prod.mk.injEq] at hrun
    obtain ⟨_, rfl⟩ := hrun
    rfl
  | cons op ops ih =>
    simp only [run] at hrun
    cases hst : step op s with
    | none => simp [hst] at hrun
    | some q =>
      obtain ⟨r, s3⟩ := q
      simp only [hst] at hrun
      cases hr : run ops s3 with
      | none => simp [hr] at hrun
      | some q2 =>
        obtain ⟨rs1, s4⟩ := q2
        simp only [hr, Option.some.injEq, Prod.mk.injEq] at hrun
        obtain ⟨_, rfl⟩ := hrun
        simp only [List.cons_append, published, hst]
        exact ih _ hr

/-- A publishing call installs `newWriteSwapCleanWithDirty` of the register and
changes no slot but the dirty one. -/
theorem flip_step_frame {op : Op T} {s s1 : TripleBuffer T} {r : Ret T}
    (hop : op.isFlip = true) (hstep : step op s = some (r, s1)) :
    s1.flags = newWriteSwapCleanWithDirty s.flags ∧
    ∀ j, j ≠ dirtyIndex s.flags → s1.buffer.get? j = s.buffer.get? j := by
  cases op with
  | flipWriter =>
    rw [step_flipWriter] at hstep
    cases hstep
    exact ⟨rfl, fun _ _ => rfl⟩
  | update w =>
    rw [step_update] at hstep
    obtain ⟨b, hb, he⟩ := Option.map_eq_some'.1 hstep
    cases he
    exact ⟨rfl, fun j hj => Buffer3.get?_modify?_ne hb hj⟩
  | write _ => simp [Op.isFlip] at hop
  | assign _ => simp [Op.isFlip] at hop
  | newSnap => simp [Op.isFlip] at hop
  | snap => simp [Op.isFlip] at hop
  | getReadRef => simp [Op.isFlip] at hop
  | readLast => simp [Op.isFlip] at hop

/-- Stores into the dirty slot and reads keep the register and every slot but the
dirty one. -/
theorem quiet_run_frame {ms : List (Op T)} {s s1 : TripleBuffer T} {res : List (Ret T)}
    (hms : ∀ op ∈ ms, op.isQuiet = true) (hrun : run ms s = some (res, s1)) :
    s1.flags = s.flags ∧
    ∀ j, j ≠ dirtyIndex s.flags → s1.buffer.get? j = s.buffer.get? j := by
  induction ms generalizing s res with
  | nil =>
    simp only [run, Option.some.injEq, Prod.mk.injEq] at hrun
    obtain ⟨_, rfl⟩ := hrun
    exact ⟨rfl, fun _ _ => rfl⟩
  | cons op ops ih =>
    simp only [run] at hrun
    cases hst : step op s with
    | none => simp [hst] at hrun
    | some q =>
      obtain ⟨r, s3⟩ := q
      simp only [hst] at hrun
      cases hr : run ops s3 with
      | none => simp [hr] at hrun
      | some q2 =>
        obtain ⟨rs1, s4⟩ := q2
        simp only [hr, Option.some.injEq, Prod.mk.injEq] at hrun
        obtain ⟨_, rfl⟩ := hrun
        have hop := hms op (List.mem_cons_self _ _)
        have h1 : s3.flags = s.flags ∧
            ∀ j, j ≠ dirtyIndex s.flags → s3.buffer.get? j = s.buffer.get? j := by
          cases op with
          | write w =>
            rw [step_write] at hst
            obtain ⟨b, hb, he⟩ := Option.map_eq_some'.1 hst
            cases he
            exact ⟨rfl, fun j hj => Buffer3.get?_modify?_ne hb hj⟩
          | assign g =>
            rw [step_assign] at hst
            obtain ⟨b, hb, he⟩ := Option.map_eq_some'.1 hst
            cases he
            exact ⟨rfl, fun j hj => Buffer3.get?_modify?_ne hb hj⟩
          | snap =>
            rw [step_snap] at hst
            obtain ⟨b, _, he⟩ := Option.map_eq_some'.1 hst
            cases he
            exact ⟨rfl, fun _ _ => rfl⟩
          | getReadRef =>
            rw [step_getReadRef] at hst
            obtain ⟨b, _, he⟩ := Option.map_eq_some'.1 hst
            cases he
            exact ⟨rfl, fun _ _ => rfl⟩
          | flipWriter => simp [Op.isQuiet] at hop
          | update _ => simp [Op.isQuiet] at hop
          | newSnap => simp [Op.isQuiet] at hop
          | readLast => simp [Op.isQuiet] at hop
        obtain ⟨h2, h3⟩ := ih (fun o ho => hms o (List.mem_cons_of_mem _ ho)) hr
        refine ⟨h2.trans h1.1, fun j hj => ?_⟩
        rw [h3 j (by rw [h1.1]; exact hj), h1.2 j hj]

/-- Reads through `snap` and `getReadRef` leave the object as it is. -/
theorem reads_run_same {gap : List (Op T)} {s s1 : TripleBuffer T} {res : List (Ret T)}
    (hgap : ∀ op ∈ gap, op = Op.snap ∨ op = Op.getReadRef)
    (hrun : run gap s = some (res, s1)) : s1 = s := by
  induction gap generalizing s res with
  | nil =>
    simp only [run, Option.some.injEq, Prod.mk.injEq] at hrun
    exact hrun.2.symm
  | cons op ops ih =>
    simp only [run] at hrun
    cases hst : step op s with
    | none => simp [hst] at hrun
    | some q =>
      obtain ⟨r, s3⟩ := q
      simp only [hst] at hrun
      cases hr : run ops s3 with
      | none => simp [hr] at hrun
      | some q2 =>
        obtain ⟨rs1, s4⟩ := q2
        simp only [hr, Option.some.injEq, Prod.mk.injEq] at hrun
        obtain ⟨_, rfl⟩ := hrun
        have h1 : s3 = s := by
          rcases hgap op (List.mem_cons_self _ _) with rfl | rfl
          · rw [step_snap] at hst
            obtain ⟨b, _, he⟩ := Option.map_eq_some'.1 hst
            cases he; rfl
          · rw [step_getReadRef] at hst
            obtain ⟨b, _, he⟩ := Option.map_eq_some'.1 hst
            cases he; rfl
        rw [ih (fun o ho => hgap o (List.mem_cons_of_mem _ ho)) hr, h1]

/-- `update` on an explicit register value and explicit slots. -/
theorem step_update_at (f : Nat) (b : Buffer3 T) (v : T) (i : Nat) (b1 : Buffer3 T)
    (hi : dirtyIndex f = i) (hb : b.modify? (fun _ => v) i = some b1) (f1 : Nat)
    (hf : newWriteSwapCleanWithDirty f = f1) :
    step (.update v) ⟨f, b⟩ = some (Ret.unit, ⟨f1, b1⟩) := by
  rw [step_update]
  simp only [hi, hb, hf, Option.map_some']

/-- `readLast` with a publication pending, on an explicit register value and explicit
slots. -/
theorem step_readLast_pending_at (f : Nat) (b : Buffer3 T) (i : Nat) (v : T)
    (hn : isNewWrite f = true) (hi : cleanIndex f = i) (hb : b.get? i = some v) (f1 : Nat)
    (hf : swapSnapWithClean f = f1) :
    step .readLast ⟨f, b⟩ = some (Ret.val v, ⟨f1, b⟩) := by
  rw [step_readLast]
  simp only [hn, hi, hb, hf, if_true, Option.map_some']

theorem isFlip_of_isQuiet {op : Op T} (h : op.isQuiet = true) : op.isFlip = false := by
  cases op <;> first | rfl | simp [Op.isQuiet] at h

/-- Three publications in a row, the third a bare `flipWriter`, with no acquisition
since the first: the third publishes again what the first published. -/
theorem republish_core {s0 : TripleBuffer T} {p0 : T} (h0 : RolesPerm s0.flags)
    (hp0 : s0.buffer.get?
      (if isNewWrite s0.flags then cleanIndex s0.flags else snapIndex s0.flags) = some p0)
    (f1 f2 : Op T) (hf1 : f1.isFlip = true) (hf2 : f2.isFlip = true)
    (mid : List (Op T)) (hmid : ∀ op ∈ mid, op.isQuiet = true)
    (gap : List (Op T)) (hgap : ∀ op ∈ gap, op = Op.snap ∨ op = Op.getReadRef) :
    published (f1 :: (mid ++ f2 :: (gap ++ [Op.flipWriter]))) s0 p0 =
      publishedAt f1 s0 p0 := by
  obtain ⟨r1, s1, hst1⟩ := step_total f1 h0
  have h1 := step_rolesPerm h0 hst1
  obtain ⟨rm, s2, hrm⟩ := run_total mid h1
  have h2 := run_rolesPerm h1 hrm
  obtain ⟨r2, s3, hst2⟩ := step_total f2 h2
  have h3 := step_rolesPerm h2 hst2
  obtain ⟨rg, s4, hrg⟩ := run_total gap h3
  have h43 : s3 = s4 := (reads_run_same hgap hrg).symm
  subst h43
  -- the first publication leaves its value in the clean slot
  obtain ⟨hfl1, _⟩ := flip_step_frame hf1 hst1
  have hn1 : isNewWrite s1.flags = true := by rw [hfl1]; exact (flip_fields s0.flags).2.2.2
  have hc1 : s1.buffer.get? (cleanIndex s1.flags) = some (publishedAt f1 s0 p0) := by
    have := pub_step h0 hp0 hst1
    rwa [hn1, if_pos rfl] at this
  obtain ⟨_, _, _, hdc1, _, _⟩ := rolesPerm_facts _ h1
  -- stores and reads leave it there
  obtain ⟨hfl2, hb2⟩ := quiet_run_frame hmid hrm
  have hc2 : s2.buffer.get? (cleanIndex s1.flags) = some (publishedAt f1 s0 p0) := by
    rw [hb2 _ (Ne.symm hdc1)]; exact hc1
  -- the second publication makes that slot the dirty one
  obtain ⟨hfl3, hb3⟩ := flip_step_frame hf2 hst2
  have hd3 : dirtyIndex s3.flags = cleanIndex s1.flags := by
    rw [hfl3, (flip_fields s2.flags).1, hfl2]
  have hc3 : s3.buffer.get? (dirtyIndex s3.flags) = some (publishedAt f1 s0 p0) := by
    rw [hd3, hb3 _ (by rw [hfl2]; exact Ne.symm hdc1)]; exact hc2
  have hmidp : published mid s1 (publishedAt f1 s0 p0) = publishedAt f1 s0 p0 :=
    published_noflip mid s1 _ (fun o ho => isFlip_of_isQuiet (hmid o ho))
  have hgapp : ∀ q : T, published gap s3 q = q := fun q =>
    published_noflip gap s3 q (fun o ho => by
      rcases hgap o ho with rfl | rfl <;> rfl)
  have hlast : ∀ q : T, published [Op.flipWriter] s3 q = publishedAt f1 s0 p0 := by
    intro q
    simp only [published, step_flipWriter, publishedAt, hc3, Option.getD_some]
  simp only [published, hst1]
  rw [published_append _ _ hrm, hmidp]
  simp only [published, hst2]
  rw [published_append _ _ hrg, hgapp, hlast]

/-- C20 (as amended): flipWriter needs no preceding write and publishes whatever the
dirty slot holds. On a fresh buffer update(a), update(b), flipWriter(), readLast()
returns a, although readLast() issued before that flipWriter returns b. In general, a
flipWriter issued after another flipWriter with no write and no newSnap in between,
and with no newSnap since the flipWriter before that one either, publishes again the
content published two flips earlier, and the next readLast returns it. -/
theorem flip_republishes (v0 a b : T) (pre0 mid gap : List (Op T)) (f1 f2 : Op T)
    (hf1 : f1.isFlip = true) (hf2 : f2.isFlip = true)
    (hmid : ∀ op ∈ mid, op.isQuiet = true)
    (hgap : ∀ op ∈ gap, op = Op.snap ∨ op = Op.getReadRef) :
    (∃ s1, run [Op.update a, .update b, .flipWriter, .readLast] (init v0) =
      some ([.unit, .unit, .unit, .val a], s1)) ∧
    (∃ s1, run [Op.update a, .update b, .readLast] (init v0) =
      some ([.unit, .unit, .val b], s1)) ∧
    published (pre0 ++ f1 :: (mid ++ f2 :: (gap ++ [Op.flipWriter]))) (init v0) v0 =
      published (pre0 ++ [f1]) (init v0) v0 ∧
    ∃ res s2,
      run (pre0 ++ f1 :: (mid ++ f2 :: (gap ++ [Op.flipWriter])) ++ [Op.readLast]) (init v0) =
        some (res ++ [Ret.val (published (pre0 ++ [f1]) (init v0) v0)], s2) := by
  have h0 : RolesPerm (init v0).flags := rolesPerm_init v0
  have hp0 : (init v0).buffer.get?
      (if isNewWrite (init v0).flags then cleanIndex (init v0).flags
        else snapIndex (init v0).flags) = some v0 := by
    have hn : isNewWrite (init v0).flags = false := by show isNewWrite 6 = false; decide
    have h3 : snapIndex (init v0).flags = 2 := by show snapIndex 6 = 2; decide
    rw [hn, if_neg (by simp), h3]; rfl
  have hgen : published (pre0 ++ f1 :: (mid ++ f2 :: (gap ++ [Op.flipWriter]))) (init v0) v0 =
      published (pre0 ++ [f1]) (init v0) v0 := by
    obtain ⟨r0, s0, hr0⟩ := run_total pre0 h0
    have hs0 := run_rolesPerm h0 hr0
    have hps0 := pub_run h0 hp0 hr0
    obtain ⟨r1, s1, hst1⟩ := step_total f1 hs0
    rw [published_append _ _ hr0, published_append _ _ hr0,
      republish_core hs0 hps0 f1 f2 hf1 hf2 mid hmid gap hgap]
    simp only [published, hst1]
  have st1 : step (.update a) (init v0) = some (Ret.unit, ⟨0x52, ⟨a, v0, v0⟩⟩) :=
    step_update_at 6 ⟨v0, v0, v0⟩ a 0 ⟨a, v0, v0⟩ (by decide) rfl 0x52 (by decide)
  have st2 : step (.update b) ⟨0x52, ⟨a, v0, v0⟩⟩ = some (Ret.unit, ⟨0x46, ⟨a, b, v0⟩⟩) :=
    step_update_at 0x52 ⟨a, v0, v0⟩ b 1 ⟨a, b, v0⟩ (by decide) rfl 0x46 (by decide)
  have st3 : step .flipWriter (⟨0x46, ⟨a, b, v0⟩⟩ : TripleBuffer T) =
      some (Ret.unit, ⟨0x52, ⟨a, b, v0⟩⟩) := by
    rw [step_flipWriter]
    have : newWriteSwapCleanWithDirty 0x46 = 0x52 := by decide
    simp only [this]
  have st4 : step .readLast (⟨0x52, ⟨a, b, v0⟩⟩ : TripleBuffer T) =
      some (Ret.val a, ⟨0x18, ⟨a, b, v0⟩⟩) :=
    step_readLast_pending_at 0x52 ⟨a, b, v0⟩ 0 a (by decide) (by decide) rfl 0x18 (by decide)
  have st5 : step .readLast (⟨0x46, ⟨a, b, v0⟩⟩ : TripleBuffer T) =
      some (Ret.val b, ⟨0x9, ⟨a, b, v0⟩⟩) :=
    step_readLast_pending_at 0x46 ⟨a, b, v0⟩ 1 b (by decide) (by decide) rfl 0x9 (by decide)
  refine ⟨⟨_, run_cons st1 (run_cons st2 (run_cons st3 (run_cons st4 rfl)))⟩,
    ⟨_, run_cons st1 (run_cons st2 (run_cons st5 rfl))⟩, hgen, ?_⟩
  · obtain ⟨res, s1, hrun⟩ :=
      run_total (pre0 ++ f1 :: (mid ++ f2 :: (gap ++ [Op.flipWriter]))) h0
    have hs1 := run_rolesPerm h0 hrun
    have hps1 := pub_run h0 hp0 hrun
    obtain ⟨r, s2, hst⟩ := step_total Op.readLast hs1
    have hr := readLast_ret hps1 hst
    rw [hgen] at hr
    subst hr
    exact ⟨res, s2, run_append hrun (run_cons hst rfl)⟩

theorem flip_republishes_witness :
    (∃ s1, run [Op.update 5, .update 6, .flipWriter, .readLast] (init (0 : Nat)) =
      some ([.unit, .unit, .unit, .val 5], s1)) ∧
    (∃ s1, run [Op.update 5, .update 6, .readLast] (init (0 : Nat)) =
      some ([.unit, .unit, .val 6], s1)) ∧
    published [Op.update 5, .write 9, .update 6, .snap, .flipWriter] (init (0 : Nat)) 0 =
      published [Op.update 5] (init (0 : Nat)) 0 ∧
    ∃ res s2,
      run [Op.update 5, .write 9, .update 6, .snap, .flipWriter, .readLast] (init (0 : Nat)) =
        some (res ++ [Ret.val (published [Op.update 5] (init (0 : Nat)) 0)], s2) :=
  flip_republishes 0 5 6 [] [.write 9] [.snap] (.update 5) (.update 6) rfl rfl
    (by simp [Op.isQuiet]) (by simp)

/-- The general sentence of C20 without the extra condition fails: with a newSnap
between the first two publications, update(5), newSnap(), update(6), flipWriter()
publishes the seed 0, not the 5 published two flips earlier, and readLast returns 0. -/
theorem flip_republishes_counterexample :
    published [Op.update 5] (init (0 : Nat)) 0 = 5 ∧
    published [Op.update 5, .newSnap, .update 6, .flipWriter] (init (0 : Nat)) 0 = 0 ∧
    run [Op.update 5, .newSnap, .update 6, .flipWriter, .readLast] (init (0 : Nat)) =
      some ([.unit, .bool true, .unit, .unit, .val 0], ⟨0x12, ⟨5, 6, 0⟩⟩) ∧
    ¬ (∀ (pre0 mid : List (Op Nat)) (f1 f2 : Op Nat),
        f1.isFlip = true → f2.isFlip = true → (∀ op ∈ mid, op.isFlip = false) →
        published (pre0 ++ f1 :: (mid ++ [f2, Op.flipWriter])) (init (0 : Nat)) 0 =
          published (pre0 ++ [f1]) (init (0 : Nat)) 0) := by
  have h1 : published [Op.update 5] (init (0 : Nat)) 0 = 5 := by
    simp only [published, publishedAt, step_update, write]; decide
  have h2 : published [Op.update 5, .newSnap, .update 6, .flipWriter] (init (0 : Nat)) 0 = 0 := by
    simp only [published, publishedAt, step_update, step_newSnap, step_flipWriter, write]
    decide
  refine ⟨h1, h2, ?_, ?_⟩
  · simp only [run, step_update, step_newSnap, step_flipWriter, step_readLast]; decide
  · intro hall
    have h3 := hall [] [Op.newSnap] (.update 5) (.update 6) rfl rfl (by simp [Op.isFlip])
    have h4 : published [Op.update 5, .newSnap, .update 6, .flipWriter] (init (0 : Nat)) 0 =
        published [Op.update 5] (init (0 : Nat)) 0 := h3
    rw [h1, h2] at h4
    exact absurd h4 (by decide)

/-! ## Interleaved execution: the cases of one atomic step -/

theorem cstep_cases {a : Act T} {c c1 : Conc T} {r : Option (Ret T)}
    (h : cstep a c = some (r, c1)) : CStep a c r c1 := by
  unfold cstep at h
  cases hme : c.callers[a.tid]? with
  | none => simp [hme] at h
  | some me =>
    simp only [hme] at h
    cases a with
    | getWriteRef t =>
      cases hpc : me.pc <;> simp only [hpc, Option.some.injEq, Prod.mk.injEq, reduceCtorEq] at h
      obtain ⟨rfl, rfl⟩ := h
      have h2 := CStep.getWriteRef t c me hme hpc
      rw [hpc] at h2
      exact h2
    | store t g =>
      cases hpc : me.pc <;> simp only [hpc, reduceCtorEq] at h
      cases hw : me.wref with
      | none => simp [hw] at h
      | some i =>
        simp only [hw, assignRef] at h
        obtain ⟨m, hm, he⟩ := Option.map_eq_some'.1 h
        obtain ⟨b, hb, rfl⟩ := Option.map_eq_some'.1 hm
        simp only [Prod.mk.injEq] at he
        obtain ⟨rfl, rfl⟩ := he
        exact CStep.store t g c me i b hme hpc hw hb
    | getReadRef t =>
      cases hpc : me.pc <;> simp only [hpc, Option.some.injEq, Prod.mk.injEq, reduceCtorEq] at h
      obtain ⟨rfl, rfl⟩ := h
      have h2 := CStep.getReadRef t c me hme hpc
      rw [hpc] at h2
      exact h2
    | fetch t =>
      cases hpc : me.pc <;> simp only [hpc, reduceCtorEq] at h
      cases hw : me.rref with
      | none => simp [hw] at h
      | some j =>
        simp only [hw, deref] at h
        obtain ⟨v, hv, he⟩ := Option.map_eq_some'.1 h
        simp only [Prod.mk.injEq] at he
        obtain ⟨rfl, rfl⟩ := he
        exact CStep.fetch t c me j v hme hpc hw hv
    | flipLoad t =>
      cases hpc : me.pc <;> simp only [hpc, Option.some.injEq, Prod.mk.injEq, reduceCtorEq] at h
      obtain ⟨rfl, rfl⟩ := h
      exact CStep.flipLoad t c me hme hpc
    | snapLoad t =>
      cases hpc : me.pc <;> simp only [hpc, reduceCtorEq] at h
      cases hn : isNewWrite c.mem.flags
      · simp only [hn, Bool.not_false, if_true, Option.some.injEq, Prod.mk.injEq] at h
        obtain ⟨rfl, rfl⟩ := h
        exact CStep.snapLoadIdle t c me hme hpc hn
      · simp only [hn, Bool.not_true, Bool.false_eq_true, if_false, Option.some.injEq,
          Prod.mk.injEq] at h
        obtain ⟨rfl, rfl⟩ := h
        exact CStep.snapLoad t c me hme hpc hn
    | cas t sp =>
      cases hpc : me.pc with
      | idle => simp [hpc] at h
      | inFlip fn =>
        simp only [hpc, casStep, compare_exchange_weak] at h
        cases sp with
        | true =>
          simp only [if_true, Option.some.injEq, Prod.mk.injEq] at h
          obtain ⟨rfl, rfl⟩ := h
          exact CStep.flipRetry t true c me fn hme hpc (Or.inl rfl)
        | false =>
          by_cases heq : c.mem.flags = fn
          · simp only [Bool.false_eq_true, if_false, heq, if_true, Option.some.injEq,
              Prod.mk.injEq] at h
            obtain ⟨rfl, rfl⟩ := h
            subst heq
            exact CStep.flipCommit t c me hme hpc
          · simp only [Bool.false_eq_true, if_false, heq, Option.some.injEq,
              Prod.mk.injEq] at h
            obtain ⟨rfl, rfl⟩ := h
            exact CStep.flipRetry t false c me fn hme hpc (Or.inr heq)
      | inSnap fn =>
        simp only [hpc, casStep, compare_exchange_weak] at h
        cases sp with
        | true =>
          simp only [if_true, Option.some.injEq, Prod.mk.injEq] at h
          obtain ⟨rfl, rfl⟩ := h
          exact CStep.snapRetry t true c me fn hme hpc (Or.inl rfl)
        | false =>
          by_cases heq : c.mem.flags = fn
          · simp only [Bool.false_eq_true, if_false, heq, if_true, Option.some.injEq,
              Prod.mk.injEq] at h
            obtain ⟨rfl, rfl⟩ := h
            subst heq
            exact CStep.snapCommit t c me hme hpc
          · simp only [Bool.false_eq_true, if_false, heq, Option.some.injEq,
              Prod.mk.injEq] at h
            obtain ⟨rfl, rfl⟩ := h
            exact CStep.snapRetry t false c me fn hme hpc (Or.inr heq)

theorem lookup_set {l : List Caller} {t u : Nat} {x y : Caller}
    (h : (l.set t x)[u]? = some y) : (u = t ∧ y = x) ∨ (u ≠ t ∧ l[u]? = some y) := by
  rw [List.getElem?_set] at h
  by_cases htu : t = u
  · subst htu
    simp only [if_true] at h
    split at h
    · exact Or.inl ⟨rfl, (Option.some.inj h).symm⟩
    · simp at h
  · rw [if_neg htu] at h
    exact Or.inr ⟨fun e => htu e.symm, h⟩

/-! ## C13: the register under any interleaving -/

theorem cstep_rolesPerm {a : Act T} {c c1 : Conc T} {r : Option (Ret T)}
    (h : RolesPerm c.mem.flags) (hstep : cstep a c = some (r, c1)) :
    RolesPerm c1.mem.flags := by
  cases cstep_cases hstep with
  | getWriteRef => exact h
  | store => exact h
  | getReadRef => exact h
  | fetch => exact h
  | flipLoad => exact h
  | snapLoadIdle => exact h
  | snapLoad => exact h
  | flipCommit => exact rolesPerm_flip _ h
  | flipRetry => exact h
  | snapCommit => exact rolesPerm_swap _ h
  | snapRetry => exact h

theorem crun_rolesPerm {acts : List (Act T)} {c c1 : Conc T} {rs : List (Option (Ret T))}
    (h : RolesPerm c.mem.flags) (hrun : crun acts c = some (rs, c1)) :
    RolesPerm c1.mem.flags := by
  induction acts generalizing c rs with
  | nil =>
    simp only [crun, Option.some.injEq, Prod.mk.injEq] at hrun
    obtain ⟨_, rfl⟩ := hrun
    exact h
  | cons a acts ih =>
    simp only [crun] at hrun
    cases hst : cstep a c with
    | none => simp [hst] at hrun
    | some q =>
      obtain ⟨r, c3⟩ := q
      simp only [hst] at hrun
      cases hr : crun acts c3 with
      | none => simp [hr] at hrun
      | some q2 =>
        obtain ⟨rs1, c4⟩ := q2
        simp only [hr, Option.some.injEq, Prod.mk.injEq] at hrun
        obtain ⟨_, rfl⟩ := hrun
        exact ih (cstep_rolesPerm h hst) hr

/-- C13: with any number n of callers running flipWriter, newSnap and the slot accesses
in any interleaving of their atomic steps (each load and each compare-exchange one
step, a compare-exchange committing f(flagsNow) only when flagsNow equals the
register and otherwise, or spuriously, reloading flagsNow), every value the flags
register takes decodes to a permutation of 0, 1, 2. -/
theorem register_integrity (n : Nat) (v0 : T) (acts : List (Act T))
    (rs : List (Option (Ret T))) (c : Conc T)
    (hrun : crun acts (cinit n v0) = some (rs, c)) :
    List.Perm [dirtyIndex c.mem.flags, cleanIndex c.mem.flags, snapIndex c.mem.flags]
      [0, 1, 2] :=
  crun_rolesPerm (rolesPerm_init v0) hrun

theorem register_integrity_witness :
    crun [Act.flipLoad 0, .flipLoad 1, .snapLoad 2, .cas 1 false, .cas 0 false,
        .snapLoad 2, .snapLoad 3, .cas 0 true, .cas 3 false, .cas 2 false, .cas 0 false,
        .cas 2 false] (cinit 4 (0 : Nat)) =
      some ([none, none, some (.bool false), some .unit, none, none, none, none,
          some (.bool true), none, none, some (.bool true)],
        ⟨⟨0x12, ⟨0, 0, 0⟩⟩,
          [⟨.inFlip 0x18, none, none⟩, ⟨.idle, none, none⟩, ⟨.idle, none, none⟩,
            ⟨.idle, none, none⟩]⟩) ∧
    List.Perm [dirtyIndex 0x12, cleanIndex 0x12, snapIndex 0x12] [0, 1, 2] :=
  ⟨by decide,
    register_integrity 4 (0 : Nat) [Act.flipLoad 0, .flipLoad 1, .snapLoad 2, .cas 1 false,
        .cas 0 false, .snapLoad 2, .snapLoad 3, .cas 0 true, .cas 3 false, .cas 2 false,
        .cas 0 false, .cas 2 false]
      [none, none, some (.bool false), some .unit, none, none, none, none,
          some (.bool true), none, none, some (.bool true)]
      ⟨⟨0x12, ⟨0, 0, 0⟩⟩,
          [⟨.inFlip 0x18, none, none⟩, ⟨.idle, none, none⟩, ⟨.idle, none, none⟩,
            ⟨.idle, none, none⟩]⟩ (by decide)⟩

/-! ## C14, C18: one writer and one reader, interleaved -/

theorem concOK_update {c c1 : Conc T} (h : ConcOK c) (t : Nat) (me1 : Caller)
    (hcallers : c1.callers = c.callers.set t me1) (hperm : RolesPerm c1.mem.flags)
    (hme : CallerOK c1.mem.flags t me1)
    (hothers : ∀ u me, u ≠ t → c.callers[u]? = some me → CallerOK c.mem.flags u me →
      CallerOK c1.mem.flags u me) : ConcOK c1 := by
  refine ⟨hperm, fun u me hu => ?_⟩
  rw [hcallers] at hu
  rcases lookup_set hu with ⟨rfl, rfl⟩ | ⟨hne, hold⟩
  · exact hme
  · exact hothers u me hne hold (h.2 u me hold)

theorem concOK_init (n : Nat) (v : T) : ConcOK (cinit n v) := by
  refine ⟨rolesPerm_init v, fun t me hme => ?_⟩
  have hme1 : (List.replicate n (⟨.idle, none, none⟩ : Caller))[t]? = some me := hme
  rw [List.getElem?_replicate] at hme1
  split at hme1
  · cases hme1
    refine ⟨?_, ?_, ?_, ?_⟩ <;> intro x hx <;> cases hx
  · cases hme1

/-- One atomic step keeps the invariant, when writer-side steps are taken by caller 0
and reader-side steps by caller 1. -/
theorem cstep_concOK {a : Act T} {c c1 : Conc T} {r : Option (Ret T)} (h : ConcOK c)
    (hw : a.isWriterAct = true → a.tid = 0) (hr : a.isReaderAct = true → a.tid = 1)
    (hstep : cstep a c = some (r, c1)) : ConcOK c1 := by
  cases cstep_cases hstep with
  | getWriteRef t _ me hme hpc =>
    have ht : t = 0 := hw rfl
    obtain ⟨_, h2, h3, h4⟩ := h.2 t me hme
    refine concOK_update h t _ rfl h.1 ⟨?_, ?_, h3, ?_⟩ (fun _ _ _ _ hok => hok)
    · intro i hi
      cases hi
      exact ⟨ht, rfl⟩
    · intro fn hfn
      exact h2 fn hfn
    · intro fn hfn
      exact h4 fn hfn
  | store t g _ me i b hme hpc hwr hb => exact ⟨h.1, h.2⟩
  | getReadRef t _ me hme hpc =>
    have ht : t = 1 := hr rfl
    obtain ⟨h1, h2, _, h4⟩ := h.2 t me hme
    refine concOK_update h t _ rfl h.1 ⟨h1, ?_, ?_, ?_⟩ (fun _ _ _ _ hok => hok)
    · intro fn hfn
      exact h2 fn hfn
    · intro j hj
      cases hj
      exact ⟨ht, rfl⟩
    · intro fn hfn
      exact h4 fn hfn
  | fetch => exact h
  | flipLoad t _ me hme hpc =>
    have ht : t = 0 := hw rfl
    obtain ⟨h1, _, h3, _⟩ := h.2 t me hme
    refine concOK_update h t _ rfl h.1 ⟨h1, fun _ _ => ht, h3, ?_⟩ (fun _ _ _ _ hok => hok)
    intro fn hfn
    cases hfn
  | snapLoadIdle => exact h
  | snapLoad t _ me hme hpc hn =>
    have ht : t = 1 := hr rfl
    obtain ⟨h1, _, h3, _⟩ := h.2 t me hme
    refine concOK_update h t _ rfl h.1 ⟨h1, ?_, h3, fun _ _ => ⟨ht, hn⟩⟩
      (fun _ _ _ _ hok => hok)
    intro fn hfn
    cases hfn
  | flipCommit t _ me hme hpc =>
    obtain ⟨_, h2, h3, _⟩ := h.2 t me hme
    have ht : t = 0 := h2 _ hpc
    obtain ⟨_, _, hfs, hfn⟩ := flip_fields c.mem.flags
    refine concOK_update h t _ rfl (rolesPerm_flip _ h.1) ⟨?_, ?_, ?_, ?_⟩ ?_
    · intro i hi; cases hi
    · intro fn hfn1; cases hfn1
    · intro j hj
      have := (h3 j hj).1
      omega
    · intro fn hfn1; cases hfn1
    · intro u me1 hne _ hok
      obtain ⟨k1, k2, k3, k4⟩ := hok
      refine ⟨?_, ?_, ?_, ?_⟩
      · intro i hi
        have := (k1 i hi).1
        omega
      · intro fn hfn1
        exact k2 fn hfn1
      · intro j hj
        obtain ⟨e1, e2⟩ := k3 j hj
        exact ⟨e1, by rw [e2]; exact hfs.symm⟩
      · intro fn hfn1
        exact ⟨(k4 fn hfn1).1, hfn⟩
  | flipRetry t sp _ me fn hme hpc hsp =>
    obtain ⟨h1, h2, h3, _⟩ := h.2 t me hme
    have ht : t = 0 := h2 _ hpc
    refine concOK_update h t _ rfl h.1 ⟨h1, fun _ _ => ht, h3, ?_⟩ (fun _ _ _ _ hok => hok)
    intro fn1 hfn1
    cases hfn1
  | snapCommit t _ me hme hpc =>
    obtain ⟨h1, _, _, h4⟩ := h.2 t me hme
    have ht : t = 1 := (h4 _ hpc).1
    obtain ⟨hsd, _, _, _⟩ := swap_fields c.mem.flags
    refine concOK_update h t _ rfl (rolesPerm_swap _ h.1) ⟨?_, ?_, ?_, ?_⟩ ?_
    · intro i hi
      have := (h1 i hi).1
      omega
    · intro fn hfn1; cases hfn1
    · intro j hj; cases hj
    · intro fn hfn1; cases hfn1
    · intro u me1 hne _ hok
      obtain ⟨k1, k2, k3, k4⟩ := hok
      refine ⟨?_, ?_, ?_, ?_⟩
      · intro i hi
        obtain ⟨e1, e2⟩ := k1 i hi
        exact ⟨e1, by rw [e2]; exact hsd.symm⟩
      · intro fn hfn1
        exact k2 fn hfn1
      · intro j hj
        have := (k3 j hj).1
        omega
      · intro fn hfn1
        have := (k4 fn hfn1).1
        omega
  | snapRetry t sp _ me fn hme hpc hsp =>
    obtain ⟨h1, _, h3, h4⟩ := h.2 t me hme
    obtain ⟨ht, hn⟩ := h4 _ hpc
    refine concOK_update h t _ rfl h.1 ⟨h1, ?_, h3, fun _ _ => ⟨ht, hn⟩⟩
      (fun _ _ _ _ hok => hok)
    intro fn1 hfn1
    cases hfn1

theorem crun_concOK {acts : List (Act T)} {c c1 : Conc T} {rs : List (Option (Ret T))}
    (h : ConcOK c) (hd : OneWriterOneReader acts) (hrun : crun acts c = some (rs, c1)) :
    ConcOK c1 := by
  induction acts generalizing c rs with
  | nil =>
    simp only [crun, Option.some.injEq, Prod.mk.injEq] at hrun
    obtain ⟨_, rfl⟩ := hrun
    exact h
  | cons a acts ih =>
    simp only [crun] at hrun
    cases hst : cstep a c with
    | none => simp [hst] at hrun
    | some q =>
      obtain ⟨r, c3⟩ := q
      simp only [hst] at hrun
      cases hr : crun acts c3 with
      | none => simp [hr] at hrun
      | some q2 =>
        obtain ⟨rs1, c4⟩ := q2
        simp only [hr, Option.some.injEq, Prod.mk.injEq] at hrun
        obtain ⟨_, rfl⟩ := hrun
        have ha := hd a (List.mem_cons_self _ _)
        exact ih (cstep_concOK h ha.1 ha.2 hst)
          (fun b hb => hd b (List.mem_cons_of_mem _ hb)) hr

/-- C14: with one writer (caller 0) and one reader (caller 1) interleaved step by step,
each load and each compare-exchange one atomic step, where a reference is held from
getWriteRef/write until the writer's next flipWriter commits and from
getReadRef/snap until the reader's next newSnap commits: in every state the slot
index the writer holds is the dirty index, the one the reader holds is the snap
index, the two differ, and a store by the writer leaves the reader's slot as it
is. -/
theorem slot_exclusion (n : Nat) (v0 : T) (acts : List (Act T))
    (hd : OneWriterOneReader acts) (rs : List (Option (Ret T))) (c : Conc T)
    (hrun : crun acts (cinit n v0) = some (rs, c)) (w r : Caller)
    (hw : c.callers[0]? = some w) (hr : c.callers[1]? = some r) (i j : Nat)
    (hi : w.wref = some i) (hj : r.rref = some j) :
    i ≠ j ∧ i = dirtyIndex c.mem.flags ∧ j = snapIndex c.mem.flags ∧
    ∀ (g : T → T) (r1 : Option (Ret T)) (c1 : Conc T),
      cstep (.store 0 g) c = some (r1, c1) →
      c1.mem.buffer.get? j = c.mem.buffer.get? j := by
  have hok := crun_concOK (concOK_init n v0) hd hrun
  obtain ⟨_, _, _, _, hds, _⟩ := rolesPerm_facts _ hok.1
  have e1 := ((hok.2 0 w hw).1 i hi).2
  have e2 := ((hok.2 1 r hr).2.2.1 j hj).2
  have hne : i ≠ j := by rw [e1, e2]; exact hds
  refine ⟨hne, e1, e2, ?_⟩
  intro g r1 c1 hstep
  cases cstep_cases hstep with
  | store _ _ _ me i1 b hme hpc hwr hb =>
    rw [hw] at hme
    cases hme
    rw [hi] at hwr
    cases hwr
    exact Buffer3.get?_modify?_ne hb (Ne.symm hne)

theorem slot_exclusion_witness :
    crun [Act.getWriteRef 0, .store 0 (fun _ => 7), .flipLoad 0, .cas 0 false, .snapLoad 1,
        .getWriteRef 0, .cas 1 false, .getReadRef 1, .store 0 (fun _ => 8), .fetch 1]
        (cinit 2 (0 : Nat)) =
      some ([none, none, none, some .unit, none, none, some (.bool true), none, none,
          some (.val 7)],
        ⟨⟨0x18, ⟨7, 8, 0⟩⟩, [⟨.idle, some 1, none⟩, ⟨.idle, none, some 0⟩]⟩) ∧
    (1 : Nat) ≠ 0 ∧ 1 = dirtyIndex 0x18 ∧ 0 = snapIndex 0x18 := by
  have hrun : crun [Act.getWriteRef 0, .store 0 (fun _ => 7), .flipLoad 0, .cas 0 false,
        .snapLoad 1, .getWriteRef 0, .cas 1 false, .getReadRef 1, .store 0 (fun _ => 8),
        .fetch 1] (cinit 2 (0 : Nat)) =
      some ([none, none, none, some .unit, none, none, some (.bool true), none, none,
          some (.val 7)],
        ⟨⟨0x18, ⟨7, 8, 0⟩⟩, [⟨.idle, some 1, none⟩, ⟨.idle, none, some 0⟩]⟩) := by decide
  have h := slot_exclusion 2 (0 : Nat) _ (by unfold OneWriterOneReader; decide) _ _ hrun
    ⟨.idle, some 1, none⟩ ⟨.idle, none, some 0⟩ rfl rfl 1 0 rfl rfl
  exact ⟨hrun, h.1, h.2.1, h.2.2.1⟩

/-! ### C18: the compare-exchange of `newSnap` always replaces a pending register -/

/-- While a publication is pending, the clean slot is the one published by the most
recent committed `flipWriter`. -/
theorem publishedSlot_step {a : Act T} {c c1 : Conc T} {r : Option (Ret T)}
    {p : Option Nat} (hp : isNewWrite c.mem.flags = true → p = some (cleanIndex c.mem.flags))
    (hstep : cstep a c = some (r, c1)) :
    isNewWrite c1.mem.flags = true →
      (match flipCommitSlot a c with
        | some i => some i
        | none => p) = some (cleanIndex c1.mem.flags) := by
  cases cstep_cases hstep with
  | getWriteRef => simpa [flipCommitSlot] using hp
  | store => simpa [flipCommitSlot] using hp
  | getReadRef => simpa [flipCommitSlot] using hp
  | fetch => simpa [flipCommitSlot] using hp
  | flipLoad => simpa [flipCommitSlot] using hp
  | snapLoadIdle => simpa [flipCommitSlot] using hp
  | snapLoad => simpa [flipCommitSlot] using hp
  | flipCommit t _ me hme hpc =>
    intro _
    simp only [flipCommitSlot, hme, hpc, if_true]
    rw [(flip_fields c.mem.flags).2.1]
  | flipRetry t sp _ me fn hme hpc hsp =>
    cases sp with
    | true => simpa [flipCommitSlot] using hp
    | false =>
      have hne : c.mem.flags ≠ fn := by
        rcases hsp with h1 | h1
        · cases h1
        · exact h1
      simpa [flipCommitSlot, hme, hpc, hne] using hp
  | snapCommit t _ me hme hpc =>
    intro hn
    rw [(swap_fields c.mem.flags).2.2.2] at hn
    cases hn
  | snapRetry t sp _ me fn hme hpc hsp =>
    cases sp with
    | true => simpa [flipCommitSlot] using hp
    | false => simpa [flipCommitSlot, hme, hpc] using hp

theorem publishedSlot_run {acts : List (Act T)} {c c1 : Conc T}
    {rs : List (Option (Ret T))} {p : Option Nat}
    (hp : isNewWrite c.mem.flags = true → p = some (cleanIndex c.mem.flags))
    (hrun : crun acts c = some (rs, c1)) :
    isNewWrite c1.mem.flags = true →
      publishedSlot acts c p = some (cleanIndex c1.mem.flags) := by
  induction acts generalizing c rs p with
  | nil =>
    simp only [crun, Option.some.injEq, Prod.mk.injEq] at hrun
    obtain ⟨_, rfl⟩ := hrun
    exact hp
  | cons a acts ih =>
    simp only [crun] at hrun
    cases hst : cstep a c with
    | none => simp [hst] at hrun
    | some q =>
      obtain ⟨r, c3⟩ := q
      simp only [hst] at hrun
      cases hr : crun acts c3 with
      | none => simp [hr] at hrun
      | some q2 =>
        obtain ⟨rs1, c4⟩ := q2
        simp only [hr, Option.some.injEq, Prod.mk.injEq] at hrun
        obtain ⟨_, rfl⟩ := hrun
        have := ih (publishedSlot_step hp hst) hr
        simpa [publishedSlot, hst] using this

/-- C18: with one writer (caller 0) and one reader (caller 1) interleaved step by step,
whenever a caller stands in the retry loop of newSnap it is the reader and the
register has the hasNewData bit (0x40) set, although the bit was tested only once
before the loop; so a compare-exchange of newSnap that commits replaces a pending
register value, newSnap returns true, and the snap role moves onto the slot published
by the most recent flipWriter committed before. -/
theorem newSnap_commit_pending (n : Nat) (v0 : T) (acts : List (Act T))
    (hd : OneWriterOneReader acts) (rs : List (Option (Ret T))) (c : Conc T)
    (hrun : crun acts (cinit n v0) = some (rs, c)) (t : Nat) (me : Caller) (fn : Nat)
    (hme : c.callers[t]? = some me) (hpc : me.pc = .inSnap fn) :
    t = 1 ∧ c.mem.flags &&& 0x40 ≠ 0 ∧
    (c.mem.flags = fn →
      ∃ c1, cstep (.cas t false) c = some (some (Ret.bool true), c1) ∧
        c1.mem.flags = swapSnapWithClean c.mem.flags ∧
        c1.mem.buffer = c.mem.buffer ∧
        publishedSlot acts (cinit n v0) none = some (snapIndex c1.mem.flags)) := by
  have hok := crun_concOK (concOK_init n v0) hd hrun
  obtain ⟨ht, hn⟩ := (hok.2 t me hme).2.2.2 fn hpc
  have hp0 : isNewWrite (cinit n v0).mem.flags = true →
      (none : Option Nat) = some (cleanIndex (cinit n v0).mem.flags) := by
    intro h
    have : isNewWrite 6 = true := h
    exact absurd this (by decide)
  have hps := publishedSlot_run hp0 hrun hn
  refine ⟨ht, (isNewWrite_iff _).1 hn, ?_⟩
  intro heq
  refine ⟨{ mem := { c.mem with flags := swapSnapWithClean c.mem.flags },
            callers := c.callers.set t { me with pc := .idle, rref := none } }, ?_, rfl, rfl, ?_⟩
  · simp [cstep, Act.tid, hme, hpc, casStep, compare_exchange_weak, heq]
  · rw [hps]
    show some (cleanIndex c.mem.flags) = some (snapIndex (swapSnapWithClean c.mem.flags))
    rw [(swap_fields c.mem.flags).2.2.1]

theorem newSnap_commit_pending_witness :
    crun [Act.getWriteRef 0, .store 0 (fun _ => 7), .flipLoad 0, .cas 0 false, .snapLoad 1,
        .getWriteRef 0, .store 0 (fun _ => 8), .flipLoad 0, .cas 0 false, .cas 1 false]
        (cinit 2 (0 : Nat)) =
      some ([none, none, none, some .unit, none, none, none, none, some .unit, none],
        ⟨⟨0x46, ⟨7, 8, 0⟩⟩, [⟨.idle, none, none⟩, ⟨.inSnap 0x46, none, none⟩]⟩) ∧
    (0x46 : Nat) &&& 0x40 ≠ 0 ∧
    ∃ c1, cstep (.cas 1 false)
        (⟨⟨0x46, ⟨7, 8, 0⟩⟩, [⟨.idle, none, none⟩, ⟨.inSnap 0x46, none, none⟩]⟩ : Conc Nat) =
          some (some (Ret.bool true), c1) ∧
      c1.mem.flags = swapSnapWithClean 0x46 ∧
      c1.mem.buffer = ⟨7, 8, 0⟩ ∧
      publishedSlot [Act.getWriteRef 0, .store 0 (fun _ => 7), .flipLoad 0, .cas 0 false,
        .snapLoad 1, .getWriteRef 0, .store 0 (fun _ => 8), .flipLoad 0, .cas 0 false,
        .cas 1 false] (cinit 2 (0 : Nat)) none = some (snapIndex c1.mem.flags) := by
  have hrun : crun [Act.getWriteRef 0, .store 0 (fun _ => 7), .flipLoad 0, .cas 0 false,
        .snapLoad 1, .getWriteRef 0, .store 0 (fun _ => 8), .flipLoad 0, .cas 0 false,
        .cas 1 false] (cinit 2 (0 : Nat)) =
      some ([none, none, none, some .unit, none, none, none, none, some .unit, none],
        ⟨⟨0x46, ⟨7, 8, 0⟩⟩, [⟨.idle, none, none⟩, ⟨.inSnap 0x46, none, none⟩]⟩) := by decide
  have h := newSnap_commit_pending 2 (0 : Nat) _ (by unfold OneWriterOneReader; decide) _ _
    hrun 1 ⟨.inSnap 0x46, none, none⟩ 0x46 rfl rfl
  exact ⟨hrun, h.2.1, h.2.2 rfl⟩

/-! ## C19: two readers can turn a delivered publication back -/

theorem crun_cons {a : Act T} {acts : List (Act T)} {c c1 c2 : Conc T}
    {r : Option (Ret T)} {rs : List (Option (Ret T))} (h1 : cstep a c = some (r, c1))
    (h2 : crun acts c1 = some (rs, c2)) : crun (a :: acts) c = some (r :: rs, c2) := by
  simp only [crun, h1, h2]

theorem crun_nil (c : Conc T) : crun ([] : List (Act T)) c = some ([], c) := rfl

theorem cstep_getWriteRef_at (f : Nat) (b : Buffer3 T) (cs0 : List Caller) (t : Nat)
    (me : Caller) (hme : cs0[t]? = some me) (hpc : me.pc = .idle) (i : Nat)
    (hi : dirtyIndex f = i) (cs : List Caller)
    (hcs : cs0.set t { me with wref := some i } = cs) :
    cstep (.getWriteRef t) ⟨⟨f, b⟩, cs0⟩ = some (none, ⟨⟨f, b⟩, cs⟩) := by
  subst hcs hi
  simp only [cstep, Act.tid, hme, hpc, getWriteRef, dirtyIndex]

theorem cstep_store_at (f : Nat) (b : Buffer3 T) (cs0 : List Caller) (t : Nat)
    (g : T → T) (me : Caller) (hme : cs0[t]? = some me) (hpc : me.pc = .idle) (i : Nat)
    (hw : me.wref = some i) (b1 : Buffer3 T) (hb : b.modify? g i = some b1) :
    cstep (.store t g) ⟨⟨f, b⟩, cs0⟩ = some (none, ⟨⟨f, b1⟩, cs0⟩) := by
  simp only [cstep, Act.tid, hme, hpc, hw, assignRef, hb, Option.map_some']

theorem cstep_flipLoad_at (f : Nat) (b : Buffer3 T) (cs0 : List Caller) (t : Nat)
    (me : Caller) (hme : cs0[t]? = some me) (hpc : me.pc = .idle) (cs : List Caller)
    (hcs : cs0.set t { me with pc := .inFlip f } = cs) :
    cstep (.flipLoad t) ⟨⟨f, b⟩, cs0⟩ = some (none, ⟨⟨f, b⟩, cs⟩) := by
  subst hcs
  simp only [cstep, Act.tid, hme, hpc]

theorem cstep_snapLoad_at (f : Nat) (b : Buffer3 T) (cs0 : List Caller) (t : Nat)
    (me : Caller) (hme : cs0[t]? = some me) (hpc : me.pc = .idle)
    (hn : isNewWrite f = true) (cs : List Caller)
    (hcs : cs0.set t { me with pc := .inSnap f } = cs) :
    cstep (.snapLoad t) ⟨⟨f, b⟩, cs0⟩ = some (none, ⟨⟨f, b⟩, cs⟩) := by
  subst hcs
  simp only [cstep, Act.tid, hme, hpc, hn, Bool.not_true, Bool.false_eq_true, if_false]

theorem cstep_flipCommit_at (f : Nat) (b : Buffer3 T) (cs0 : List Caller) (t : Nat)
    (me : Caller) (hme : cs0[t]? = some me) (hpc : me.pc = .inFlip f) (f1 : Nat)
    (hf : newWriteSwapCleanWithDirty f = f1) (cs : List Caller)
    (hcs : cs0.set t { me with pc := .idle, wref := none } = cs) :
    cstep (.cas t false) ⟨⟨f, b⟩, cs0⟩ = some (some Ret.unit, ⟨⟨f1, b⟩, cs⟩) := by
  subst hcs hf
  simp only [cstep, Act.tid, hme, hpc, casStep, compare_exchange_weak, Bool.false_eq_true,
    if_false, if_true]

theorem cstep_snapCommit_at (f : Nat) (b : Buffer3 T) (cs0 : List Caller) (t : Nat)
    (me : Caller) (hme : cs0[t]? = some me) (hpc : me.pc = .inSnap f) (f1 : Nat)
    (hf : swapSnapWithClean f = f1) (cs : List Caller)
    (hcs : cs0.set t { me with pc := .idle, rref := none } = cs) :
    cstep (.cas t false) ⟨⟨f, b⟩, cs0⟩ = some (some (Ret.bool true), ⟨⟨f1, b⟩, cs⟩) := by
  subst hcs hf
  simp only [cstep, Act.tid, hme, hpc, casStep, compare_exchange_weak, Bool.false_eq_true,
    if_false, if_true]

theorem cstep_snapRetry_at (f : Nat) (b : Buffer3 T) (cs0 : List Caller) (t : Nat)
    (me : Caller) (fn : Nat) (hme : cs0[t]? = some me) (hpc : me.pc = .inSnap fn)
    (hne : f ≠ fn) (cs : List Caller)
    (hcs : cs0.set t { me with pc := .inSnap f } = cs) :
    cstep (.cas t false) ⟨⟨f, b⟩, cs0⟩ = some (none, ⟨⟨f, b⟩, cs⟩) := by
  subst hcs
  simp only [cstep, Act.tid, hme, hpc, casStep, compare_exchange_weak, Bool.false_eq_true,
    if_false, hne]

/-- C19: with two reader-side callers there is an interleaving in which newSnap returns
true without delivering a publication. On a fresh buffer seeded with v0, after
update(a) by caller 0, callers 1 and 2 both load the flags with hasNewData set;
caller 1 commits its compare-exchange (snap now gives a); caller 2 fails its
compare-exchange, reloads the flags, now with hasNewData clear, retries without
testing the bit again, commits a second snap/clean swap and returns true. After that
snap() returns v0 again, hasNewData is clear, and every sequence of reader-side calls
returns v0 and false only. -/
theorem lost_publication (v0 a : T) :
    crun [Act.getWriteRef 0, .store 0 (fun _ => a), .flipLoad 0, .cas 0 false,
        .snapLoad 1, .snapLoad 2] (cinit 3 v0) =
      some ([none, none, none, some .unit, none, none],
        ⟨⟨0x52, ⟨a, v0, v0⟩⟩,
          [⟨.idle, none, none⟩, ⟨.inSnap 0x52, none, none⟩, ⟨.inSnap 0x52, none, none⟩]⟩) ∧
    (0x52 : Nat) &&& 0x40 ≠ 0 ∧
    cstep (.cas 1 false) (⟨⟨0x52, ⟨a, v0, v0⟩⟩,
          [⟨.idle, none, none⟩, ⟨.inSnap 0x52, none, none⟩, ⟨.inSnap 0x52, none, none⟩]⟩ :
          Conc T) =
      some (some (Ret.bool true), ⟨⟨0x18, ⟨a, v0, v0⟩⟩,
          [⟨.idle, none, none⟩, ⟨.idle, none, none⟩, ⟨.inSnap 0x52, none, none⟩]⟩) ∧
    snap (⟨0x18, ⟨a, v0, v0⟩⟩ : TripleBuffer T) = some a ∧
    cstep (.cas 2 false) (⟨⟨0x18, ⟨a, v0, v0⟩⟩,
          [⟨.idle, none, none⟩, ⟨.idle, none, none⟩, ⟨.inSnap 0x52, none, none⟩]⟩ :
          Conc T) =
      some (none, ⟨⟨0x18, ⟨a, v0, v0⟩⟩,
          [⟨.idle, none, none⟩, ⟨.idle, none, none⟩, ⟨.inSnap 0x18, none, none⟩]⟩) ∧
    (0x18 : Nat) &&& 0x40 = 0 ∧
    cstep (.cas 2 false) (⟨⟨0x18, ⟨a, v0, v0⟩⟩,
          [⟨.idle, none, none⟩, ⟨.idle, none, none⟩, ⟨.inSnap 0x18, none, none⟩]⟩ :
          Conc T) =
      some (some (Ret.bool true), ⟨⟨0x12, ⟨a, v0, v0⟩⟩,
          [⟨.idle, none, none⟩, ⟨.idle, none, none⟩, ⟨.idle, none, none⟩]⟩) ∧
    crun [Act.getWriteRef 0, .store 0 (fun _ => a), .flipLoad 0, .cas 0 false,
        .snapLoad 1, .snapLoad 2, .cas 1 false, .cas 2 false, .cas 2 false] (cinit 3 v0) =
      some ([none, none, none, some .unit, none, none, some (.bool true), none,
          some (.bool true)],
        ⟨⟨0x12, ⟨a, v0, v0⟩⟩,
          [⟨.idle, none, none⟩, ⟨.idle, none, none⟩, ⟨.idle, none, none⟩]⟩) ∧
    snap (⟨0x12, ⟨a, v0, v0⟩⟩ : TripleBuffer T) = some v0 ∧
    (0x12 : Nat) &&& 0x40 = 0 ∧
    ∀ rs : List (Op T), (∀ op ∈ rs, op.isReader = true) →
      run rs (⟨0x12, ⟨a, v0, v0⟩⟩ : TripleBuffer T) =
        some (rs.map (stableRet v0), ⟨0x12, ⟨a, v0, v0⟩⟩) := by
  have s1 : cstep (.getWriteRef 0) (cinit 3 v0) = some (none,
      ⟨⟨0x6, ⟨v0, v0, v0⟩⟩,
        [⟨.idle, some 0, none⟩, ⟨.idle, none, none⟩, ⟨.idle, none, none⟩]⟩) :=
    cstep_getWriteRef_at 0x6 ⟨v0, v0, v0⟩
      [⟨.idle, none, none⟩, ⟨.idle, none, none⟩, ⟨.idle, none, none⟩] 0
      ⟨.idle, none, none⟩ (by decide) rfl 0 (by decide) _ (by decide)
  have s2 : cstep (.store 0 (fun _ => a)) (⟨⟨0x6, ⟨v0, v0, v0⟩⟩,
        [⟨.idle, some 0, none⟩, ⟨.idle, none, none⟩, ⟨.idle, none, none⟩]⟩ : Conc T) =
      some (none, ⟨⟨0x6, ⟨a, v0, v0⟩⟩,
        [⟨.idle, some 0, none⟩, ⟨.idle, none, none⟩, ⟨.idle, none, none⟩]⟩) :=
    cstep_store_at 0x6 ⟨v0, v0, v0⟩
      [⟨.idle, some 0, none⟩, ⟨.idle, none, none⟩, ⟨.idle, none, none⟩] 0 (fun _ => a)
      ⟨.idle, some 0, none⟩ (by decide) rfl 0 rfl ⟨a, v0, v0⟩ rfl
  have s3 : cstep (.flipLoad 0) (⟨⟨0x6, ⟨a, v0, v0⟩⟩,
        [⟨.idle, some 0, none⟩, ⟨.idle, none, none⟩, ⟨.idle, none, none⟩]⟩ : Conc T) =
      some (none, ⟨⟨0x6, ⟨a, v0, v0⟩⟩,
        [⟨.inFlip 0x6, some 0, none⟩, ⟨.idle, none, none⟩, ⟨.idle, none, none⟩]⟩) :=
    cstep_flipLoad_at 0x6 ⟨a, v0, v0⟩
      [⟨.idle, some 0, none⟩, ⟨.idle, none, none⟩, ⟨.idle, none, none⟩] 0
      ⟨.idle, some 0, none⟩ (by decide) rfl _ (by decide)
  have s4 : cstep (.cas 0 false) (⟨⟨0x6, ⟨a, v0, v0⟩⟩,
        [⟨.inFlip 0x6, some 0, none⟩, ⟨.idle, none, none⟩, ⟨.idle, none, none⟩]⟩ : Conc T) =
      some (some Ret.unit, ⟨⟨0x52, ⟨a, v0, v0⟩⟩,
        [⟨.idle, none, none⟩, ⟨.idle, none, none⟩, ⟨.idle, none, none⟩]⟩) :=
    cstep_flipCommit_at 0x6 ⟨a, v0, v0⟩
      [⟨.inFlip 0x6, some 0, none⟩, ⟨.idle, none, none⟩, ⟨.idle, none, none⟩] 0
      ⟨.inFlip 0x6, some 0, none⟩ (by decide) rfl 0x52 (by decide) _ (by decide)
  have s5 : cstep (.snapLoad 1) (⟨⟨0x52, ⟨a, v0, v0⟩⟩,
        [⟨.idle, none, none⟩, ⟨.idle, none, none⟩, ⟨.idle, none, none⟩]⟩ : Conc T) =
      some (none, ⟨⟨0x52, ⟨a, v0, v0⟩⟩,
        [⟨.idle, none, none⟩, ⟨.inSnap 0x52, none, none⟩, ⟨.idle, none, none⟩]⟩) :=
    cstep_snapLoad_at 0x52 ⟨a, v0, v0⟩
      [⟨.idle, none, none⟩, ⟨.idle, none, none⟩, ⟨.idle, none, none⟩] 1
      ⟨.idle, none, none⟩ (by decide) rfl (by decide) _ (by decide)
  have s6 : cstep (.snapLoad 2) (⟨⟨0x52, ⟨a, v0, v0⟩⟩,
        [⟨.idle, none, none⟩, ⟨.inSnap 0x52, none, none⟩, ⟨.idle, none, none⟩]⟩ : Conc T) =
      some (none, ⟨⟨0x52, ⟨a, v0, v0⟩⟩,
        [⟨.idle, none, none⟩, ⟨.inSnap 0x52, none, none⟩, ⟨.inSnap 0x52, none, none⟩]⟩) :=
    cstep_snapLoad_at 0x52 ⟨a, v0, v0⟩
      [⟨.idle, none, none⟩, ⟨.inSnap 0x52, none, none⟩, ⟨.idle, none, none⟩] 2
      ⟨.idle, none, none⟩ (by decide) rfl (by decide) _ (by decide)
  have s7 : cstep (.cas 1 false) (⟨⟨0x52, ⟨a, v0, v0⟩⟩,
        [⟨.idle, none, none⟩, ⟨.inSnap 0x52, none, none⟩, ⟨.inSnap 0x52, none, none⟩]⟩ :
        Conc T) =
      some (some (Ret.bool true), ⟨⟨0x18, ⟨a, v0, v0⟩⟩,
        [⟨.idle, none, none⟩, ⟨.idle, none, none⟩, ⟨.inSnap 0x52, none, none⟩]⟩) :=
    cstep_snapCommit_at 0x52 ⟨a, v0, v0⟩
      [⟨.idle, none, none⟩, ⟨.inSnap 0x52, none, none⟩, ⟨.inSnap 0x52, none, none⟩] 1
      ⟨.inSnap 0x52, none, none⟩ (by decide) rfl 0x18 (by decide) _ (by decide)
  have s8 : cstep (.cas 2 false) (⟨⟨0x18, ⟨a, v0, v0⟩⟩,
        [⟨.idle, none, none⟩, ⟨.idle, none, none⟩, ⟨.inSnap 0x52, none, none⟩]⟩ : Conc T) =
      some (none, ⟨⟨0x18, ⟨a, v0, v0⟩⟩,
        [⟨.idle, none, none⟩, ⟨.idle, none, none⟩, ⟨.inSnap 0x18, none, none⟩]⟩) :=
    cstep_snapRetry_at 0x18 ⟨a, v0, v0⟩
      [⟨.idle, none, none⟩, ⟨.idle, none, none⟩, ⟨.inSnap 0x52, none, none⟩] 2
      ⟨.inSnap 0x52, none, none⟩ 0x52 (by decide) rfl (by decide) _ (by decide)
  have s9 : cstep (.cas 2 false) (⟨⟨0x18, ⟨a, v0, v0⟩⟩,
        [⟨.idle, none, none⟩, ⟨.idle, none, none⟩, ⟨.inSnap 0x18, none, none⟩]⟩ : Conc T) =
      some (some (Ret.bool true), ⟨⟨0x12, ⟨a, v0, v0⟩⟩,
        [⟨.idle, none, none⟩, ⟨.idle, none, none⟩, ⟨.idle, none, none⟩]⟩) :=
    cstep_snapCommit_at 0x18 ⟨a, v0, v0⟩
      [⟨.idle, none, none⟩, ⟨.idle, none, none⟩, ⟨.inSnap 0x18, none, none⟩] 2
      ⟨.inSnap 0x18, none, none⟩ (by decide) rfl 0x12 (by decide) _ (by decide)
  have hn : isNewWrite (⟨0x12, ⟨a, v0, v0⟩⟩ : TripleBuffer T).flags = false := by
    show isNewWrite 0x12 = false
    decide
  have hv : (⟨0x12, ⟨a, v0, v0⟩⟩ : TripleBuffer T).buffer.get?
      (snapIndex (⟨0x12, ⟨a, v0, v0⟩⟩ : TripleBuffer T).flags) = some v0 := by
    show Buffer3.get? ⟨a, v0, v0⟩ (snapIndex 0x12) = some v0
    have : snapIndex 0x12 = 2 := by decide
    rw [this]; rfl
  have hva : snap (⟨0x18, ⟨a, v0, v0⟩⟩ : TripleBuffer T) = some a := by
    show Buffer3.get? ⟨a, v0, v0⟩ (snapIndex 0x18) = some a
    have : snapIndex 0x18 = 0 := by decide
    rw [this]; rfl
  have p6 := crun_cons s1 (crun_cons s2 (crun_cons s3 (crun_cons s4 (crun_cons s5
    (crun_cons s6 (crun_nil _))))))
  have p9 := crun_cons s1 (crun_cons s2 (crun_cons s3 (crun_cons s4 (crun_cons s5
    (crun_cons s6 (crun_cons s7 (crun_cons s8 (crun_cons s9 (crun_nil _)))))))))
  exact ⟨p6, by decide, s7, hva, s8, by decide, s9, p9, hv, by decide,
    fun rs hrs => run_readers hn hv rs hrs⟩

end TripleBuffer
